import Mathlib

/-!
Verification of the geometric core of the hanamaru-renderer repository.

The embedding works over exact arithmetic: the f64 coordinates of the source
are modelled by the rationals for the BVH / intersection layer (so that
concrete runs of the code are kernel-computable) and by the reals for the
BRDF sampling layer (whose mathematics needs genuine sqrt / sin / cos).
IEEE-754 rounding is not modelled; every algebraic step of the source is
translated literally.  The one partial primitive, f64::sqrt, is modelled by
Rat.sqrt on the rational side (exact on squares of rationals; no theorem
below depends on its value anywhere else) and by Real.sqrt on the real side.

Source files embedded: src/vector.rs, src/bvh.rs, src/scene.rs, src/brdf.rs.
The repository units camera.rs, config.rs, consts.rs, math.rs and the Aabb /
Mesh declarations are used by those files but are absent from src/; the
corresponding definitions below are modelled from the spec and say so in
their doc comments.
-/

namespace Hanamaru

/-- Mirror of Vector3 (src/vector.rs): an immutable value type of three
coordinates.  The coordinate type is a parameter so that the same embedding
serves the rational geometry layer and the real sampling layer. -/
structure Vec3 (α : Type) where
  x : α
  y : α
  z : α
deriving DecidableEq, Repr

/-- Mirror of Vector2 (src/vector.rs); only construction and equality are
needed by the code under study. -/
structure Vec2 (α : Type) where
  x : α
  y : α
deriving DecidableEq, Repr

namespace Vec3

variable {α : Type} [Field α]

/-- Vector3::zero. -/
def zero : Vec3 α := ⟨0, 0, 0⟩

/-- impl Add for Vector3. -/
def add (a b : Vec3 α) : Vec3 α := ⟨a.x + b.x, a.y + b.y, a.z + b.z⟩

/-- impl Sub for Vector3. -/
def sub (a b : Vec3 α) : Vec3 α := ⟨a.x - b.x, a.y - b.y, a.z - b.z⟩

/-- impl Neg for Vector3. -/
def neg (a : Vec3 α) : Vec3 α := ⟨-a.x, -a.y, -a.z⟩

/-- impl Mul of f64 for Vector3 (componentwise scaling). -/
def smul (a : Vec3 α) (s : α) : Vec3 α := ⟨a.x * s, a.y * s, a.z * s⟩

/-- Vector3::dot. -/
def dot (a b : Vec3 α) : α := a.x * b.x + a.y * b.y + a.z * b.z

/-- Vector3::cross. -/
def cross (a b : Vec3 α) : Vec3 α :=
  ⟨a.y * b.z - a.z * b.y, a.z * b.x - a.x * b.z, a.x * b.y - a.y * b.x⟩

/-- Vector3::norm — the squared length, exactly as in the source. -/
def norm (a : Vec3 α) : α := a.x * a.x + a.y * a.y + a.z * a.z

/-- Vector3::normalize: scale by the reciprocal of sqrt(norm).  The sqrt
primitive of f64 is passed explicitly; call sites instantiate it with the
model of f64::sqrt of their coordinate type. -/
def normalize (sqrt : α → α) (a : Vec3 α) : Vec3 α :=
  let inv_len := (sqrt a.norm)⁻¹
  ⟨a.x * inv_len, a.y * inv_len, a.z * inv_len⟩

end Vec3

/-- Model of f64::sqrt on the rational layer.  Rat.sqrt is exact on squares
of rationals; no theorem in this development depends on its value at any
other argument (it only ever reaches the normal field of a hit record and
the sphere discriminant, never a comparison that a claim is about). -/
def fsqrt (q : ℚ) : ℚ := Rat.sqrt q

/-- Modelled from the spec: math::det (src/math.rs is not under src/), the
determinant of the 3-by-3 matrix formed by the three vectors, i.e. the
scalar triple product. -/
def det (a b c : Vec3 ℚ) : ℚ :=
  a.x * (b.y * c.z - b.z * c.y)
    - a.y * (b.x * c.z - b.z * c.x)
    + a.z * (b.x * c.y - b.y * c.x)

/-- Mirror of Ray (src/scene.rs): origin and direction. -/
structure Ray where
  origin : Vec3 ℚ
  direction : Vec3 ℚ
deriving DecidableEq, Repr

/-- Mirror of Intersection (src/scene.rs): the mutable per-query hit record.
The distance field of the source is an f64 seeded with +infinity, modelled
here as WithTop of the rationals.  The material slot of the source is
omitted: its type lives outside src/ and none of the embedded code paths
ever reads or writes it. -/
structure Intersection where
  hit : Bool
  position : Vec3 ℚ
  distance : WithTop ℚ
  normal : Vec3 ℚ
  uv : Vec2 ℚ
deriving DecidableEq, Repr

/-- Intersection::empty (src/scene.rs): no hit yet, distance = +infinity. -/
def Intersection.empty : Intersection :=
  { hit := false
    position := Vec3.zero
    distance := ⊤
    normal := Vec3.zero
    uv := ⟨0, 0⟩ }

/-- Mirror of intersect_polygon (src/bvh.rs lines 128-152).  Returns the
flag together with the possibly updated record (the source mutates the
record through a reference).  Note that the source never writes the hit
field here, and that the rejection tests are the strict comparisons
t < 0.0 and t > intersection.distance. -/
def intersect_polygon (v0 v1 v2 : Vec3 ℚ) (ray : Ray) (i : Intersection) :
    Bool × Intersection :=
  let ray_inv := ray.direction.neg
  let edge1 := v1.sub v0
  let edge2 := v2.sub v0
  let denominator := det edge1 edge2 ray_inv
  if denominator = 0 then (false, i) else
  let denominator_inv := denominator⁻¹
  let d := ray.origin.sub v0
  let u := det d edge2 ray_inv * denominator_inv
  if u < 0 ∨ u > 1 then (false, i) else
  let v := det edge1 d ray_inv * denominator_inv
  if v < 0 ∨ u + v > 1 then (false, i) else
  let t := det edge1 edge2 d * denominator_inv
  if t < 0 ∨ (t : WithTop ℚ) > i.distance then (false, i) else
  (true,
    { i with
      position := ray.origin.add (ray.direction.smul t)
      normal := (edge1.cross edge2).normalize fsqrt
      distance := (t : WithTop ℚ)
      uv := ⟨u, v⟩ })

/-- Mirror of Sphere (src/scene.rs), geometric fields only. -/
structure Sphere where
  center : Vec3 ℚ
  radius : ℚ

/-- Mirror of Sphere::intersect (src/scene.rs lines 48-63). -/
def Sphere.intersect (s : Sphere) (ray : Ray) (i : Intersection) :
    Bool × Intersection :=
  let a := ray.origin.sub s.center
  let b := a.dot ray.direction
  let c := a.dot a - s.radius * s.radius
  let d := b * b - c
  let t := -b - fsqrt d
  if d > 0 ∧ t > 0 ∧ (t : WithTop ℚ) < i.distance then
    let position := ray.origin.add (ray.direction.smul t)
    (true,
      { i with
        hit := true
        position := position
        distance := (t : WithTop ℚ)
        normal := (position.sub s.center).normalize fsqrt })
  else (false, i)

/-- Modelled from the spec: math::modulo (src/math.rs is not under src/),
reduction modulo 1 used for the tiled plane UVs. -/
def modulo (a b : ℚ) : ℚ := a - b * ⌊a / b⌋

/-- Mirror of Plane (src/scene.rs), geometric fields only. -/
structure Plane where
  center : Vec3 ℚ
  normal : Vec3 ℚ

/-- Mirror of Plane::intersect (src/scene.rs lines 77-93).  The f64 division
by v when the ray is parallel to the plane yields a non-finite t that always
fails the acceptance test in the source; the rational division by zero
yields 0, which fails the same test, so the branch behaviour agrees. -/
def Plane.intersect (p : Plane) (ray : Ray) (i : Intersection) :
    Bool × Intersection :=
  let d := -(p.center.dot p.normal)
  let v := ray.direction.dot p.normal
  let t := -(ray.origin.dot p.normal + d) / v
  if t > 0 ∧ (t : WithTop ℚ) < i.distance then
    let position := ray.origin.add (ray.direction.smul t)
    (true,
      { i with
        hit := true
        position := position
        normal := p.normal
        distance := (t : WithTop ℚ)
        uv := ⟨modulo position.x 1, modulo position.z 1⟩ })
  else (false, i)

/-- Coordinates of bounding-box corners: the rationals extended with the two
infinities, mirroring the f64 infinities that the empty-box sentinel of the
source stores in its corners. -/
abbrev ExtQ := WithBot (WithTop ℚ)

/-- Embeds a finite rational corner / coordinate into ExtQ. -/
def toExt (q : ℚ) : ExtQ := ((q : WithTop ℚ) : ExtQ)

/-- Modelled from the spec: Aabb (declared in a file absent from src/), two
corner vectors min and max; the empty sentinel puts +infinity in every
left_bottom coordinate and -infinity in every right_top coordinate. -/
structure Aabb where
  left_bottom : Vec3 ExtQ
  right_top : Vec3 ExtQ
deriving DecidableEq

/-- The empty-box sentinel of BvhNode::empty (src/bvh.rs lines 20-29):
left_bottom = +INF, right_top = -INF on every axis. -/
def Aabb.emptyBox : Aabb := ⟨⟨⊤, ⊤, ⊤⟩, ⟨⊥, ⊥, ⊥⟩⟩

/-- Modelled from the spec: the candidate parameter (corner - origin) /
direction of the slab method for one corner, for a nonzero direction
component; an infinite corner yields the infinity of the matching sign, as
IEEE-754 division prescribes. -/
def slabT (c : ExtQ) (o d : ℚ) : ExtQ :=
  match c with
  | none => if d > 0 then ⊥ else ⊤
  | some none => if d > 0 then ⊤ else ⊥
  | some (some q) => toExt ((q - o) / d)

/-- Modelled from the spec: the per-axis interval of the slab method.  For a
zero direction component the spec prescribes the IEEE-754 infinities; the
generic outcome of those (origin strictly inside the slab passes with no
constraint, origin outside rejects) is written out directly, which also
fixes the 0/0 corner case the spec leaves open, in the conservative
direction. -/
def slabAxis (lo hi : ExtQ) (o d : ℚ) : ExtQ × ExtQ :=
  if d = 0 then (if lo ≤ toExt o ∧ toExt o ≤ hi then (⊥, ⊤) else (⊤, ⊥))
  else (min (slabT lo o d) (slabT hi o d), max (slabT lo o d) (slabT hi o d))

/-- Modelled from the spec: Aabb::intersect_ray (absent from src/), the slab
method; intersect the three per-axis intervals into [tnear, tfar] and reject
when tfar < tnear or tfar < 0.  The source returns a tuple whose first
component is the boolean possible-hit flag and is the only part the BVH
reads; only that flag is modelled. -/
def Aabb.intersect_ray (aabb : Aabb) (ray : Ray) : Bool :=
  let ax := slabAxis aabb.left_bottom.x aabb.right_top.x ray.origin.x ray.direction.x
  let ay := slabAxis aabb.left_bottom.y aabb.right_top.y ray.origin.y ray.direction.y
  let az := slabAxis aabb.left_bottom.z aabb.right_top.z ray.origin.z ray.direction.z
  let tnear := max ax.1 (max ay.1 az.1)
  let tfar := min ax.2 (min ay.2 az.2)
  ¬(tfar < tnear ∨ tfar < toExt 0)

/-- Face of a Mesh: three vertex indices.  Modelled from the spec (the Mesh
declaration is absent from src/). -/
structure Face where
  v0 : ℕ
  v1 : ℕ
  v2 : ℕ
deriving DecidableEq, Repr

/-- Modelled from the spec: Mesh, an ordered sequence of vertex positions
and an ordered sequence of triangular faces. -/
structure Mesh where
  vertexes : List (Vec3 ℚ)
  faces : List Face
deriving DecidableEq, Repr

/-- Indexing mesh.faces.  Rust panics out of bounds; the model totalises
with a dummy face, and every theorem only ever exercises in-bounds
indices. -/
def Mesh.face (m : Mesh) (i : ℕ) : Face := m.faces.getD i ⟨0, 0, 0⟩

/-- Indexing mesh.vertexes, totalised like Mesh.face. -/
def Mesh.vertex (m : Mesh) (j : ℕ) : Vec3 ℚ := m.vertexes.getD j Vec3.zero

/-- One folding step of BvhNode::set_aabb (src/bvh.rss lines 31-46): extend
the box by the three vertices of one face, coordinatewise min for
left_bottom and max for right_top. -/
def growAabb (mesh : Mesh) (box : Aabb) (face_index : ℕ) : Aabb :=
  let face := mesh.face face_index
  let p0 := mesh.vertex face.v0
  let p1 := mesh.vertex face.v1
  let p2 := mesh.vertex face.v2
  { left_bottom :=
      ⟨min (min (min box.left_bottom.x (toExt p0.x)) (toExt p1.x)) (toExt p2.x),
       min (min (min box.left_bottom.y (toExt p0.y)) (toExt p1.y)) (toExt p2.y),
       min (min (min box.left_bottom.z (toExt p0.z)) (toExt p1.z)) (toExt p2.z)⟩
    right_top :=
      ⟨max (max (max box.right_top.x (toExt p0.x)) (toExt p1.x)) (toExt p2.x),
       max (max (max box.right_top.y (toExt p0.y)) (toExt p1.y)) (toExt p2.y),
       max (max (max box.right_top.z (toExt p0.z)) (toExt p1.z)) (toExt p2.z)⟩ }

/-- BvhNode::set_aabb (src/bvh.rs lines 31-46) as a function from the face
index list to the box it builds, starting from the empty sentinel. -/
def setAabb (mesh : Mesh) (face_indexes : List ℕ) : Aabb :=
  face_indexes.foldl (growAabb mesh) Aabb.emptyBox

/-- Length of one axis of a box, right_top - left_bottom (src/bvh.rs lines
58-60), in the extended arithmetic of IEEE-754; the mixed-infinity junk
cases are never reached from a nonempty face list. -/
def extLen (hi lo : ExtQ) : ExtQ :=
  match hi, lo with
  | some (some a), some (some b) => toExt (a - b)
  | none, _ => ⊥
  | _, none => ⊤
  | some none, _ => ⊤
  | _, some none => ⊥

/-- The sort key of the builder (src/bvh.rs lines 66-67, 74-75, 82-83): the
sum of the three vertex coordinates of a face on one axis, as selected by a
coordinate projection. -/
def faceAxisSum (mesh : Mesh) (coord : Vec3 ℚ → ℚ) (face_index : ℕ) : ℚ :=
  let face := mesh.face face_index
  coord (mesh.vertex face.v0) + coord (mesh.vertex face.v1) + coord (mesh.vertex face.v2)

/-- The axis-selection and sort of BvhNode::from_face_indexes (src/bvh.rs
lines 58-86): pick the strictly dominant extent (falling back to z),
then sort the face indexes ascending by the coordinate sum on that axis.
The source sorts with a stable sort under a total comparator; a stable sort
under a total preorder is unique, so the stable insertion sort used here
produces the same order. -/
def sortedByAxis (mesh : Mesh) (box : Aabb) (face_indexes : List ℕ) : List ℕ :=
  let lx := extLen box.right_top.x box.left_bottom.x
  let ly := extLen box.right_top.y box.left_bottom.y
  let lz := extLen box.right_top.z box.left_bottom.z
  if lx > ly ∧ lx > lz then
    List.insertionSort
      (fun a b => faceAxisSum mesh Vec3.x a ≤ faceAxisSum mesh Vec3.x b) face_indexes
  else if ly > lx ∧ ly > lz then
    List.insertionSort
      (fun a b => faceAxisSum mesh Vec3.y a ≤ faceAxisSum mesh Vec3.y b) face_indexes
  else
    List.insertionSort
      (fun a b => faceAxisSum mesh Vec3.z a ≤ faceAxisSum mesh Vec3.z b) face_indexes

/-- Mirror of BvhNode (src/bvh.rs lines 7-17): a box, a child list that is
empty exactly at leaves, and the face indexes a leaf holds. -/
inductive BvhNode where
  | mk (aabb : Aabb) (children : List BvhNode) (face_indexes : List ℕ)

/-- The box of a node. -/
def BvhNode.aabb : BvhNode → Aabb
  | .mk a _ _ => a

/-- The child list of a node. -/
def BvhNode.children : BvhNode → List BvhNode
  | .mk _ cs _ => cs

/-- The face indexes a node holds directly. -/
def BvhNode.face_indexes : BvhNode → List ℕ
  | .mk _ _ idxs => idxs

/-- Mirror of BvhNode::from_face_indexes (src/bvh.rs lines 48-94): compute
the box; if half the count is at most 2, make a leaf holding the indexes
verbatim; otherwise sort along the dominant axis, split at the midpoint and
recurse.  split_off(mid) leaves the first mid entries in place (the first
child) and returns the rest (the second child). -/
def BvhNode.from_face_indexes (mesh : Mesh) (face_indexes : List ℕ) : BvhNode :=
  let box := setAabb mesh face_indexes
  let mid := face_indexes.length / 2
  if mid ≤ 2 then
    .mk box [] face_indexes
  else
    let sorted := sortedByAxis mesh box face_indexes
    .mk box
      [BvhNode.from_face_indexes mesh (sorted.take mid),
       BvhNode.from_face_indexes mesh (sorted.drop mid)]
      []
termination_by face_indexes.length
decreasing_by
  · simp only [List.length_take, sortedByAxis]
    split
    · simp only [List.length_insertionSort]; omega
    · split <;> simp only [List.length_insertionSort] <;> omega
  · simp only [List.length_drop, sortedByAxis]
    split
    · simp only [List.length_insertionSort]; omega
    · split <;> simp only [List.length_insertionSort] <;> omega

/-- Mirror of BvhNode::from_mesh (src/bvh.rs lines 96-99). -/
def BvhNode.from_mesh (mesh : Mesh) : BvhNode :=
  BvhNode.from_face_indexes mesh (List.range mesh.faces.length)

/-- The leaf loop of BvhNode::intersect (src/bvh.rs lines 109-114): test
every face of the list in order against the shared record, accumulating
whether any test accepted. -/
def intersectFaces (mesh : Mesh) (ray : Ray) :
    List ℕ → Bool → Intersection → Bool × Intersection
  | [], any_hit, i => (any_hit, i)
  | face_index :: rest, any_hit, i =>
    let face := mesh.face face_index
    let r := intersect_polygon (mesh.vertex face.v0) (mesh.vertex face.v1)
      (mesh.vertex face.v2) ray i
    intersectFaces mesh ray rest (any_hit || r.1) r.2

mutual

/-- Mirror of BvhNode::intersect (src/bvh.rs lines 101-125): prune when the
box test fails, otherwise run the leaf loop or visit both children in
order, accumulating whether the subtree improved the record. -/
def BvhNode.intersect : BvhNode → Mesh → Ray → Intersection → Bool × Intersection
  | .mk aabb children face_indexes, mesh, ray, i =>
    if ¬ aabb.intersect_ray ray then (false, i)
    else if children.isEmpty then intersectFaces mesh ray face_indexes false i
    else intersectChildren children mesh ray false i

/-- The child loop of BvhNode::intersect (src/bvh.rs lines 117-121). -/
def intersectChildren : List BvhNode → Mesh → Ray → Bool → Intersection → Bool × Intersection
  | [], _, _, any_hit, i => (any_hit, i)
  | c :: rest, mesh, ray, any_hit, i =>
    let r := c.intersect mesh ray i
    intersectChildren rest mesh ray (any_hit || r.1) r.2

end

/-- The brute-force comparator the central correctness claim describes:
call the triangle intersection routine directly on every face of the mesh
in index order against the given record.  This is the reference the BVH
query is compared with; it reuses the leaf loop, which performs exactly
those calls. -/
def bruteForce (mesh : Mesh) (ray : Ray) : Bool × Intersection :=
  intersectFaces mesh ray (List.range mesh.faces.length) false Intersection.empty

/-- The determinant the triangle test calls denominator (src/bvh.rs line
132), written as a closed function of the test inputs. -/
def triDenom (v0 v1 v2 : Vec3 ℚ) (ray : Ray) : ℚ :=
  det (v1.sub v0) (v2.sub v0) ray.direction.neg

/-- The barycentric weight u of the triangle test (src/bvh.rs line 138). -/
def triU (v0 v1 v2 : Vec3 ℚ) (ray : Ray) : ℚ :=
  det (ray.origin.sub v0) (v2.sub v0) ray.direction.neg * (triDenom v0 v1 v2 ray)⁻¹

/-- The barycentric weight v of the triangle test (src/bvh.rs line 141). -/
def triV (v0 v1 v2 : Vec3 ℚ) (ray : Ray) : ℚ :=
  det (v1.sub v0) (ray.origin.sub v0) ray.direction.neg * (triDenom v0 v1 v2 ray)⁻¹

/-- The ray parameter t of the triangle test (src/bvh.rs line 144). -/
def triT (v0 v1 v2 : Vec3 ℚ) (ray : Ray) : ℚ :=
  det (v1.sub v0) (v2.sub v0) (ray.origin.sub v0) * (triDenom v0 v1 v2 ray)⁻¹

/-- The record intersect_polygon writes on acceptance (src/bvh.rs lines
147-151), as a function of the test inputs; note the hit field is not
touched. -/
def polyWrite (v0 v1 v2 : Vec3 ℚ) (ray : Ray) (i : Intersection) : Intersection :=
  { i with
    position := ray.origin.add (ray.direction.smul (triT v0 v1 v2 ray))
    normal := (((v1.sub v0)).cross (v2.sub v0)).normalize fsqrt
    distance := ((triT v0 v1 v2 ray : ℚ) : WithTop ℚ)
    uv := ⟨triU v0 v1 v2 ray, triV v0 v1 v2 ray⟩ }

/-- The record-independent part of the triangle test: the candidate
parameter t the test would accept against a record of currently infinite
distance, none when the test rejects for every record.  Only the final
distance comparison of the test depends on the record, so this decouples
the geometry from the fold over records. -/
def candidate (v0 v1 v2 : Vec3 ℚ) (ray : Ray) : Option ℚ :=
  if triDenom v0 v1 v2 ray = 0 then none
  else if triU v0 v1 v2 ray < 0 ∨ triU v0 v1 v2 ray > 1 then none
  else if triV v0 v1 v2 ray < 0 ∨ triU v0 v1 v2 ray + triV v0 v1 v2 ray > 1 then none
  else if triT v0 v1 v2 ray < 0 then none
  else some (triT v0 v1 v2 ray)

/-- The candidate of one mesh face. -/
def faceCandidate (mesh : Mesh) (ray : Ray) (face_index : ℕ) : Option ℚ :=
  let face := mesh.face face_index
  candidate (mesh.vertex face.v0) (mesh.vertex face.v1) (mesh.vertex face.v2) ray

/-- The candidate of one mesh face as an extended distance, infinite when
the face rejects every record. -/
def candDist (mesh : Mesh) (ray : Ray) (face_index : ℕ) : WithTop ℚ :=
  (faceCandidate mesh ray face_index).elim ⊤ (fun t => (t : WithTop ℚ))

/-- The least candidate distance over a list of faces. -/
def minCand (mesh : Mesh) (ray : Ray) (face_indexes : List ℕ) : WithTop ℚ :=
  (face_indexes.map (candDist mesh ray)).foldr min ⊤

/-- All face indexes a query on the subtree can reach, in traversal order:
the node's own list at a leaf, the children's lists below an intermediate
node (whose own list the traversal ignores, as the source does). -/
def treeFaces : BvhNode → List ℕ
  | .mk _ children face_indexes =>
    if children.isEmpty then face_indexes
    else (children.attach.map (fun c => treeFaces c.1)).flatten
termination_by node => sizeOf node
decreasing_by
  have := List.sizeOf_lt_of_mem c.2
  simp only [BvhNode.mk.sizeOf_spec]
  omega

/-- Reachable faces of a leaf. -/
theorem treeFaces_leaf (a : Aabb) (idxs : List ℕ) :
    treeFaces (.mk a [] idxs) = idxs := by
  rw [treeFaces]
  rfl

/-- Reachable faces of an intermediate node. -/
theorem treeFaces_node (a : Aabb) {cs : List BvhNode} (h : cs ≠ []) (idxs : List ℕ) :
    treeFaces (.mk a cs idxs) = (cs.map treeFaces).flatten := by
  rw [treeFaces, if_neg (by simpa using h)]
  rw [List.attach_map_val cs treeFaces]

/-- Unfolds the triangle test into its record-independent candidate, the
final distance comparison, and the written record. -/
theorem intersect_polygon_eq (v0 v1 v2 : Vec3 ℚ) (ray : Ray) (i : Intersection) :
    intersect_polygon v0 v1 v2 ray i =
      (candidate v0 v1 v2 ray).elim (false, i) (fun t =>
        if (t : WithTop ℚ) > i.distance then (false, i)
        else (true, polyWrite v0 v1 v2 ray i)) := by
  unfold intersect_polygon candidate polyWrite triU triV triT triDenom
  dsimp only
  by_cases h1 : det (v1.sub v0) (v2.sub v0) ray.direction.neg = 0
  · simp only [if_pos h1, Option.elim_none]
  · simp only [if_neg h1]
    by_cases h2 : det (ray.origin.sub v0) (v2.sub v0) ray.direction.neg *
        (det (v1.sub v0) (v2.sub v0) ray.direction.neg)⁻¹ < 0 ∨
        det (ray.origin.sub v0) (v2.sub v0) ray.direction.neg *
        (det (v1.sub v0) (v2.sub v0) ray.direction.neg)⁻¹ > 1
    · simp only [if_pos h2, Option.elim_none]
    · simp only [if_neg h2]
      by_cases h3 : det (v1.sub v0) (ray.origin.sub v0) ray.direction.neg *
          (det (v1.sub v0) (v2.sub v0) ray.direction.neg)⁻¹ < 0 ∨
          det (ray.origin.sub v0) (v2.sub v0) ray.direction.neg *
          (det (v1.sub v0) (v2.sub v0) ray.direction.neg)⁻¹ +
          det (v1.sub v0) (ray.origin.sub v0) ray.direction.neg *
          (det (v1.sub v0) (v2.sub v0) ray.direction.neg)⁻¹ > 1
      · simp only [if_pos h3, Option.elim_none]
      · simp only [if_neg h3]
        by_cases h4 : det (v1.sub v0) (v2.sub v0) (ray.origin.sub v0) *
            (det (v1.sub v0) (v2.sub v0) ray.direction.neg)⁻¹ < 0
        · rw [if_pos (Or.inl h4), if_pos h4, Option.elim_none]
        · simp only [if_neg h4]
          by_cases h5 : ((det (v1.sub v0) (v2.sub v0) (ray.origin.sub v0) *
              (det (v1.sub v0) (v2.sub v0) ray.direction.neg)⁻¹ : ℚ) : WithTop ℚ) > i.distance
          · rw [if_pos (Or.inr h5)]
            show _ = ite _ _ _
            rw [if_pos h5]
          · rw [if_neg (by tauto : ¬(det (v1.sub v0) (v2.sub v0) (ray.origin.sub v0) *
              (det (v1.sub v0) (v2.sub v0) ray.direction.neg)⁻¹ < 0 ∨
              ((det (v1.sub v0) (v2.sub v0) (ray.origin.sub v0) *
              (det (v1.sub v0) (v2.sub v0) ray.direction.neg)⁻¹ : ℚ) : WithTop ℚ) > i.distance))]
            show _ = ite _ _ _
            rw [if_neg h5]

/-- Everything a successful candidate certifies: a nonzero denominator, the
barycentric window, a nonnegative parameter, and its value. -/
theorem candidate_spec {v0 v1 v2 : Vec3 ℚ} {ray : Ray} {t : ℚ}
    (h : candidate v0 v1 v2 ray = some t) :
    triDenom v0 v1 v2 ray ≠ 0 ∧
    0 ≤ triU v0 v1 v2 ray ∧ triU v0 v1 v2 ray ≤ 1 ∧
    0 ≤ triV v0 v1 v2 ray ∧ triU v0 v1 v2 ray + triV v0 v1 v2 ray ≤ 1 ∧
    0 ≤ t ∧ t = triT v0 v1 v2 ray := by
  unfold candidate at h
  split_ifs at h with h1 h2 h3 h4
  obtain rfl : triT v0 v1 v2 ray = t := Option.some_injective ℚ h
  push_neg at h2 h3 h4
  exact ⟨h1, h2.1, h2.2, h3.1, h3.2, h4, rfl⟩

/-- The candidate is none exactly when the test rejects every record. -/
theorem candidate_eq_none {v0 v1 v2 : Vec3 ℚ} {ray : Ray}
    (h : candidate v0 v1 v2 ray = none) (i : Intersection) :
    intersect_polygon v0 v1 v2 ray i = (false, i) := by
  rw [intersect_polygon_eq, h, Option.elim_none]

/-- The distance after one triangle test is the minimum of the incoming
distance and the candidate distance of the face. -/
theorem intersect_polygon_distance (v0 v1 v2 : Vec3 ℚ) (ray : Ray) (i : Intersection) :
    (intersect_polygon v0 v1 v2 ray i).2.distance =
      min i.distance ((candidate v0 v1 v2 ray).elim ⊤ (fun t => (t : WithTop ℚ))) := by
  rw [intersect_polygon_eq]
  cases hc : candidate v0 v1 v2 ray with
  | none => simp
  | some t =>
    obtain ⟨-, -, -, -, -, -, ht⟩ := candidate_spec hc
    rw [Option.elim_some]
    by_cases h5 : ((t : ℚ) : WithTop ℚ) > i.distance
    · rw [if_pos h5]
      simp only [Option.elim_some]
      exact (min_eq_left h5.le).symm
    · rw [if_neg h5]
      push_neg at h5
      simp only [polyWrite, Option.elim_some, ← ht]
      exact (min_eq_right h5).symm

/-- One triangle test reports true exactly when the face has a candidate at
most the incoming distance (the tie t = distance is accepted). -/
theorem intersect_polygon_true_iff (v0 v1 v2 : Vec3 ℚ) (ray : Ray) (i : Intersection) :
    (intersect_polygon v0 v1 v2 ray i).1 = true ↔
      ∃ t : ℚ, candidate v0 v1 v2 ray = some t ∧ (t : WithTop ℚ) ≤ i.distance := by
  rw [intersect_polygon_eq]
  cases hc : candidate v0 v1 v2 ray with
  | none => simp
  | some t =>
    rw [Option.elim_some]
    by_cases h5 : ((t : ℚ) : WithTop ℚ) > i.distance
    · rw [if_pos h5]
      simp only [Bool.false_eq_true, false_iff, not_exists, not_and]
      rintro t1 ht1 hle
      obtain rfl : t = t1 := Option.some_injective ℚ ht1
      exact absurd h5 (not_lt_of_le hle)
    · rw [if_neg h5]
      push_neg at h5
      exact ⟨fun _ => ⟨t, rfl, h5⟩, fun _ => rfl⟩

/-- A rejecting triangle test leaves the record untouched. -/
theorem intersect_polygon_false_unchanged (v0 v1 v2 : Vec3 ℚ) (ray : Ray) (i : Intersection)
    (h : (intersect_polygon v0 v1 v2 ray i).1 = false) :
    (intersect_polygon v0 v1 v2 ray i).2 = i := by
  rw [intersect_polygon_eq] at h ⊢
  cases hc : candidate v0 v1 v2 ray with
  | none => rfl
  | some t =>
    rw [hc, Option.elim_some] at h
    rw [Option.elim_some]
    by_cases h5 : ((t : ℚ) : WithTop ℚ) > i.distance
    · rw [if_pos h5]
    · rw [if_neg h5] at h
      exact absurd h (by simp)

/-- The triangle test never writes the hit flag. -/
theorem intersect_polygon_hit (v0 v1 v2 : Vec3 ℚ) (ray : Ray) (i : Intersection) :
    (intersect_polygon v0 v1 v2 ray i).2.hit = i.hit := by
  rw [intersect_polygon_eq]
  cases candidate v0 v1 v2 ray with
  | none => rfl
  | some t =>
    rw [Option.elim_some]
    by_cases h5 : ((t : ℚ) : WithTop ℚ) > i.distance
    · rw [if_pos h5]
    · rw [if_neg h5]; rfl

/-- Cons step of the least candidate distance. -/
theorem minCand_cons (mesh : Mesh) (ray : Ray) (a : ℕ) (l : List ℕ) :
    minCand mesh ray (a :: l) = min (candDist mesh ray a) (minCand mesh ray l) := rfl

/-- Nil case of the least candidate distance. -/
theorem minCand_nil (mesh : Mesh) (ray : Ray) : minCand mesh ray [] = ⊤ := rfl

/-- Appending face lists takes the minimum of the two least candidate
distances. -/
theorem minCand_append (mesh : Mesh) (ray : Ray) (l1 l2 : List ℕ) :
    minCand mesh ray (l1 ++ l2) = min (minCand mesh ray l1) (minCand mesh ray l2) := by
  induction l1 with
  | nil => simp [minCand_nil, minCand_cons]
  | cons a l ih =>
    rw [List.cons_append, minCand_cons, minCand_cons, ih, min_assoc]

/-- The least candidate distance is invariant under permutation of the face
list. -/
theorem minCand_perm (mesh : Mesh) (ray : Ray) {l1 l2 : List ℕ} (h : l1.Perm l2) :
    minCand mesh ray l1 = minCand mesh ray l2 := by
  unfold minCand
  exact (h.map (candDist mesh ray)).foldr_eq ⊤

/-- A finite least candidate distance is attained by some face of the
list. -/
theorem minCand_attained (mesh : Mesh) (ray : Ray) {l : List ℕ}
    (h : minCand mesh ray l ≠ ⊤) :
    ∃ fi ∈ l, candDist mesh ray fi = minCand mesh ray l := by
  induction l with
  | nil => exact absurd (minCand_nil mesh ray) h
  | cons a l ih =>
    rw [minCand_cons] at h ⊢
    rcases min_cases (candDist mesh ray a) (minCand mesh ray l) with ⟨heq, -⟩ | ⟨heq, hlt⟩
    · exact ⟨a, List.mem_cons_self a l, heq.symm⟩
    · rw [heq] at h
      obtain ⟨fi, hfi, heq2⟩ := ih h
      exact ⟨fi, List.mem_cons_of_mem a hfi, by rw [heq2, heq]⟩

/-- A candidate below the least of a list bounds the least. -/
theorem minCand_le_of_mem (mesh : Mesh) (ray : Ray) {l : List ℕ} {fi : ℕ}
    (h : fi ∈ l) : minCand mesh ray l ≤ candDist mesh ray fi := by
  induction l with
  | nil => cases h
  | cons a l ih =>
    rw [minCand_cons]
    rcases List.mem_cons.1 h with rfl | h2
    · exact min_le_left _ _
    · exact le_trans (min_le_right _ _) (ih h2)

/-- The face candidate unfolded to the triangle-test candidate. -/
theorem faceCandidate_def (mesh : Mesh) (ray : Ray) (fi : ℕ) :
    faceCandidate mesh ray fi =
      candidate (mesh.vertex (mesh.face fi).v0) (mesh.vertex (mesh.face fi).v1)
        (mesh.vertex (mesh.face fi).v2) ray := rfl

/-- The distance after the leaf loop is the minimum of the incoming
distance and the least candidate distance of the visited faces. -/
theorem intersectFaces_distance (mesh : Mesh) (ray : Ray) :
    ∀ (idxs : List ℕ) (b : Bool) (i : Intersection),
      (intersectFaces mesh ray idxs b i).2.distance =
        min i.distance (minCand mesh ray idxs)
  | [], b, i => by simp [intersectFaces, minCand_nil]
  | fi :: rest, b, i => by
    rw [intersectFaces, intersectFaces_distance mesh ray rest, minCand_cons, ← min_assoc]
    congr 1
    rw [intersect_polygon_distance]
    rfl

/-- The leaf loop never changes the hit flag. -/
theorem intersectFaces_hit (mesh : Mesh) (ray : Ray) :
    ∀ (idxs : List ℕ) (b : Bool) (i : Intersection),
      (intersectFaces mesh ray idxs b i).2.hit = i.hit
  | [], b, i => rfl
  | fi :: rest, b, i => by
    rw [intersectFaces, intersectFaces_hit mesh ray rest]
    exact intersect_polygon_hit _ _ _ _ _

/-- The leaf loop reports an accepted face exactly when some visited face
has a candidate at most the incoming distance (or the accumulator was
already true). -/
theorem intersectFaces_true_iff (mesh : Mesh) (ray : Ray) :
    ∀ (idxs : List ℕ) (b : Bool) (i : Intersection),
      (intersectFaces mesh ray idxs b i).1 = true ↔
        b = true ∨ ∃ fi ∈ idxs, ∃ t : ℚ,
          faceCandidate mesh ray fi = some t ∧ (t : WithTop ℚ) ≤ i.distance
  | [], b, i => by simp [intersectFaces]
  | fi :: rest, b, i => by
    rw [intersectFaces]
    rcases hc : faceCandidate mesh ray fi with - | t
    · rw [show (intersect_polygon (mesh.vertex (mesh.face fi).v0)
          (mesh.vertex (mesh.face fi).v1) (mesh.vertex (mesh.face fi).v2) ray i) = (false, i)
          from candidate_eq_none hc i]
      rw [intersectFaces_true_iff mesh ray rest]
      simp only [Bool.or_false]
      constructor
      · rintro (hb | ⟨fj, hfj, t, hct, hle⟩)
        · exact Or.inl hb
        · exact Or.inr ⟨fj, List.mem_cons_of_mem fi hfj, t, hct, hle⟩
      · rintro (hb | ⟨fj, hfj, t, hct, hle⟩)
        · exact Or.inl hb
        · rcases List.mem_cons.1 hfj with rfl | hfj2
          · rw [hc] at hct; cases hct
          · exact Or.inr ⟨fj, hfj2, t, hct, hle⟩
    · by_cases hle : (t : WithTop ℚ) ≤ i.distance
      · have hb1 : (intersect_polygon (mesh.vertex (mesh.face fi).v0)
            (mesh.vertex (mesh.face fi).v1) (mesh.vertex (mesh.face fi).v2) ray i).1 = true :=
          (intersect_polygon_true_iff _ _ _ _ _).2 ⟨t, hc, hle⟩
        rw [hb1]
        rw [intersectFaces_true_iff mesh ray rest]
        simp only [Bool.or_true, true_or, true_iff]
        exact Or.inr ⟨fi, List.mem_cons_self fi rest, t, hc, hle⟩
      · have hb1 : (intersect_polygon (mesh.vertex (mesh.face fi).v0)
            (mesh.vertex (mesh.face fi).v1) (mesh.vertex (mesh.face fi).v2) ray i).1 = false := by
          rcases hb : (intersect_polygon (mesh.vertex (mesh.face fi).v0)
            (mesh.vertex (mesh.face fi).v1) (mesh.vertex (mesh.face fi).v2) ray i).1 with - | -
          · rfl
          · obtain ⟨t1, hct1, hle1⟩ := (intersect_polygon_true_iff _ _ _ _ _).1 hb
            rw [← faceCandidate_def, hc] at hct1
            obtain rfl : t = t1 := Option.some_injective ℚ hct1
            exact absurd hle1 hle
        have hrec : (intersect_polygon (mesh.vertex (mesh.face fi).v0)
            (mesh.vertex (mesh.face fi).v1) (mesh.vertex (mesh.face fi).v2) ray i).2 = i :=
          intersect_polygon_false_unchanged _ _ _ _ _ hb1
        rw [hb1, hrec, intersectFaces_true_iff mesh ray rest]
        simp only [Bool.or_false]
        constructor
        · rintro (hb | ⟨fj, hfj, t1, hct, hle1⟩)
          · exact Or.inl hb
          · exact Or.inr ⟨fj, List.mem_cons_of_mem fi hfj, t1, hct, hle1⟩
        · rintro (hb | ⟨fj, hfj, t1, hct, hle1⟩)
          · exact Or.inl hb
          · rcases List.mem_cons.1 hfj with rfl | hfj2
            · rw [hc] at hct
              obtain rfl : t = t1 := Option.some_injective ℚ hct
              exact absurd hle1 hle
            · exact Or.inr ⟨fj, hfj2, t1, hct, hle1⟩

/-- Two vectors with equal components are equal. -/
@[ext] theorem Vec3.ext {α : Type} {a b : Vec3 α}
    (hx : a.x = b.x) (hy : a.y = b.y) (hz : a.z = b.z) : a = b := by
  cases a; cases b; cases hx; cases hy; cases hz; rfl

/-- Finite coordinates compare in ExtQ as in the rationals. -/
theorem toExt_le_toExt {a b : ℚ} : toExt a ≤ toExt b ↔ a ≤ b := by simp [toExt]

/-- No finite coordinate dominates the top sentinel. -/
theorem not_top_le_toExt (a : ℚ) : ¬ ((⊤ : ExtQ) ≤ toExt a) := by simp [toExt]

/-- A point lies inside a box when every coordinate is within the
corners. -/
def vertInBox (box : Aabb) (p : Vec3 ℚ) : Prop :=
  (box.left_bottom.x ≤ toExt p.x ∧ toExt p.x ≤ box.right_top.x) ∧
  (box.left_bottom.y ≤ toExt p.y ∧ toExt p.y ≤ box.right_top.y) ∧
  (box.left_bottom.z ≤ toExt p.z ∧ toExt p.z ≤ box.right_top.z)

/-- All three vertices of a face lie inside a box. -/
def faceInBox (mesh : Mesh) (box : Aabb) (fi : ℕ) : Prop :=
  vertInBox box (mesh.vertex (mesh.face fi).v0) ∧
  vertInBox box (mesh.vertex (mesh.face fi).v1) ∧
  vertInBox box (mesh.vertex (mesh.face fi).v2)

/-- Pointwise widening order on boxes. -/
def boxLe (b1 b2 : Aabb) : Prop :=
  b2.left_bottom.x ≤ b1.left_bottom.x ∧ b2.left_bottom.y ≤ b1.left_bottom.y ∧
  b2.left_bottom.z ≤ b1.left_bottom.z ∧
  b1.right_top.x ≤ b2.right_top.x ∧ b1.right_top.y ≤ b2.right_top.y ∧
  b1.right_top.z ≤ b2.right_top.z

/-- Widening preserves membership. -/
theorem vertInBox_mono {b1 b2 : Aabb} {p : Vec3 ℚ} (h : boxLe b1 b2)
    (hp : vertInBox b1 p) : vertInBox b2 p := by
  obtain ⟨h1, h2, h3, h4, h5, h6⟩ := h
  obtain ⟨⟨p1, p2⟩, ⟨p3, p4⟩, ⟨p5, p6⟩⟩ := hp
  exact ⟨⟨le_trans h1 p1, le_trans p2 h4⟩, ⟨le_trans h2 p3, le_trans p4 h5⟩,
    ⟨le_trans h3 p5, le_trans p6 h6⟩⟩

/-- Growing a box only widens it. -/
theorem growAabb_wider (mesh : Mesh) (box : Aabb) (fi : ℕ) :
    boxLe box (growAabb mesh box fi) := by
  unfold growAabb boxLe
  refine ⟨?_, ?_, ?_, ?_, ?_, ?_⟩ <;>
    simp only [min_le_iff, le_max_iff, le_refl, true_or, or_true]

/-- A fold of growth steps only widens the box. -/
theorem setFold_wider (mesh : Mesh) :
    ∀ (idxs : List ℕ) (box : Aabb), boxLe box (idxs.foldl (growAabb mesh) box)
  | [], box => ⟨le_refl _, le_refl _, le_refl _, le_refl _, le_refl _, le_refl _⟩
  | fi :: rest, box => by
    rw [List.foldl_cons]
    have h1 := growAabb_wider mesh box fi
    have h2 := setFold_wider mesh rest (growAabb mesh box fi)
    obtain ⟨a1, a2, a3, a4, a5, a6⟩ := h1
    obtain ⟨b1, b2, b3, b4, b5, b6⟩ := h2
    exact ⟨le_trans b1 a1, le_trans b2 a2, le_trans b3 a3,
      le_trans a4 b4, le_trans a5 b5, le_trans a6 b6⟩

/-- The growth step encloses the vertices of the face it adds. -/
theorem growAabb_contains (mesh : Mesh) (box : Aabb) (fi : ℕ) :
    faceInBox mesh (growAabb mesh box fi) fi := by
  unfold growAabb faceInBox vertInBox
  dsimp only
  refine ⟨⟨⟨?_, ?_⟩, ⟨?_, ?_⟩, ⟨?_, ?_⟩⟩, ⟨⟨?_, ?_⟩, ⟨?_, ?_⟩, ⟨?_, ?_⟩⟩,
    ⟨⟨?_, ?_⟩, ⟨?_, ?_⟩, ⟨?_, ?_⟩⟩⟩ <;>
    simp only [min_le_iff, le_max_iff, le_refl, true_or, or_true]

/-- Every face of the list lies inside the box set_aabb computes. -/
theorem setAabb_contains (mesh : Mesh) :
    ∀ (idxs : List ℕ) {fi : ℕ}, fi ∈ idxs → faceInBox mesh (setAabb mesh idxs) fi := by
  have key : ∀ (idxs : List ℕ) (box : Aabb) {fi : ℕ}, fi ∈ idxs →
      faceInBox mesh (idxs.foldl (growAabb mesh) box) fi := by
    intro idxs
    induction idxs with
    | nil => intro box fi h; cases h
    | cons a rest ih =>
      intro box fi h
      rw [List.foldl_cons]
      rcases List.mem_cons.1 h with rfl | h2
      · have hc := growAabb_contains mesh box fi
        have hw := setFold_wider mesh rest (growAabb mesh box fi)
        exact ⟨vertInBox_mono hw hc.1, vertInBox_mono hw hc.2.1, vertInBox_mono hw hc.2.2⟩
      · exact ih (growAabb mesh box a) h2
  intro idxs fi h
  exact key idxs Aabb.emptyBox h

/-- The candidate parameter of one corner bounds the ray parameter from
below, positive-direction case. -/
theorem slabT_le_pos {c : ExtQ} {o d t : ℚ} (hpos : 0 < d)
    (hc : c ≤ toExt (o + d * t)) : slabT c o d ≤ toExt t := by
  cases c with
  | none => simp [slabT, if_pos hpos]
  | some w =>
    cases w with
    | top => exact absurd hc (not_top_le_toExt _)
    | coe q =>
      have hq : q ≤ o + d * t := toExt_le_toExt.1 hc
      simp only [slabT, toExt_le_toExt]
      rw [div_le_iff hpos]
      linarith

/-- The candidate parameter of one corner bounds the ray parameter from
above, positive-direction case. -/
theorem le_slabT_pos {c : ExtQ} {o d t : ℚ} (hpos : 0 < d)
    (hc : toExt (o + d * t) ≤ c) : toExt t ≤ slabT c o d := by
  cases c with
  | none => exact absurd hc (not_le_of_lt (WithBot.bot_lt_coe _))
  | some w =>
    cases w with
    | top => simp [slabT, if_pos hpos]
    | coe q =>
      have hq : o + d * t ≤ q := toExt_le_toExt.1 hc
      simp only [slabT, toExt_le_toExt]
      rw [le_div_iff hpos]
      linarith

/-- The candidate parameter of one corner bounds the ray parameter from
below, negative-direction case. -/
theorem slabT_le_neg {c : ExtQ} {o d t : ℚ} (hneg : d < 0)
    (hc : toExt (o + d * t) ≤ c) : slabT c o d ≤ toExt t := by
  cases c with
  | none => exact absurd hc (not_le_of_lt (WithBot.bot_lt_coe _))
  | some w =>
    cases w with
    | top => simp [slabT, if_neg (not_lt_of_lt hneg)]
    | coe q =>
      have hq : o + d * t ≤ q := toExt_le_toExt.1 hc
      simp only [slabT, toExt_le_toExt]
      rw [div_le_iff_of_neg hneg]
      linarith

/-- The candidate parameter of one corner bounds the ray parameter from
above, negative-direction case. -/
theorem le_slabT_neg {c : ExtQ} {o d t : ℚ} (hneg : d < 0)
    (hc : c ≤ toExt (o + d * t)) : toExt t ≤ slabT c o d := by
  cases c with
  | none => simp [slabT, if_neg (not_lt_of_lt hneg)]
  | some w =>
    cases w with
    | top => exact absurd hc (not_top_le_toExt _)
    | coe q =>
      have hq : q ≤ o + d * t := toExt_le_toExt.1 hc
      simp only [slabT, toExt_le_toExt]
      rw [le_div_iff_of_neg hneg]
      linarith

/-- The per-axis slab interval contains the parameter of any ray point
whose coordinate is within the slab. -/
theorem slabAxis_contains {lo hi : ExtQ} {o d t : ℚ}
    (hlo : lo ≤ toExt (o + d * t)) (hhi : toExt (o + d * t) ≤ hi) :
    (slabAxis lo hi o d).1 ≤ toExt t ∧ toExt t ≤ (slabAxis lo hi o d).2 := by
  unfold slabAxis
  by_cases hd : d = 0
  · subst hd
    rw [if_pos rfl]
    have ho : lo ≤ toExt o ∧ toExt o ≤ hi := by
      constructor
      · calc lo ≤ toExt (o + 0 * t) := hlo
          _ = toExt o := by norm_num
      · calc toExt o = toExt (o + 0 * t) := by norm_num
          _ ≤ hi := hhi
    rw [if_pos ho]
    exact ⟨bot_le, le_top⟩
  · rw [if_neg hd]
    dsimp only
    rcases lt_or_gt_of_ne hd with hneg | hpos
    · exact ⟨le_trans (min_le_right _ _) (slabT_le_neg hneg hhi),
        le_trans (le_slabT_neg hneg hlo) (le_max_left _ _)⟩
    · exact ⟨le_trans (min_le_left _ _) (slabT_le_pos hpos hlo),
        le_trans (le_slabT_pos hpos hhi) (le_max_right _ _)⟩

/-- Conservativity of the box test: if the ray carries a point of
nonnegative parameter inside the box, the slab test reports a possible
hit. -/
theorem intersect_ray_of_contains {box : Aabb} {ray : Ray} {t : ℚ} (ht : 0 ≤ t)
    (h : vertInBox box (ray.origin.add (ray.direction.smul t))) :
    box.intersect_ray ray = true := by
  obtain ⟨⟨hx1, hx2⟩, ⟨hy1, hy2⟩, ⟨hz1, hz2⟩⟩ := h
  have hx := slabAxis_contains (o := ray.origin.x) (d := ray.direction.x) hx1 hx2
  have hy := slabAxis_contains (o := ray.origin.y) (d := ray.direction.y) hy1 hy2
  have hz := slabAxis_contains (o := ray.origin.z) (d := ray.direction.z) hz1 hz2
  unfold Aabb.intersect_ray
  simp only [decide_eq_true_eq]
  push_neg
  constructor
  · exact le_trans (max_le hx.1 (max_le hy.1 hz.1)) (le_min hx.2 (le_min hy.2 hz.2))
  · exact le_trans (toExt_le_toExt.2 ht) (le_min hx.2 (le_min hy.2 hz.2))

/-- Cramer identity of the triangle test: with a nonzero denominator, the
ray point at parameter t is the barycentric combination of the vertices
with weights (1-u-v, u, v). -/
theorem tri_position {v0 v1 v2 : Vec3 ℚ} {ray : Ray}
    (hdn : triDenom v0 v1 v2 ray ≠ 0) :
    ray.origin.add (ray.direction.smul (triT v0 v1 v2 ray)) =
      (v0.smul (1 - triU v0 v1 v2 ray - triV v0 v1 v2 ray)).add
        ((v1.smul (triU v0 v1 v2 ray)).add (v2.smul (triV v0 v1 v2 ray))) := by
  have hU : triU v0 v1 v2 ray * triDenom v0 v1 v2 ray =
      det (ray.origin.sub v0) (v2.sub v0) ray.direction.neg := by
    unfold triU
    rw [mul_assoc, inv_mul_cancel₀ hdn, mul_one]
  have hV : triV v0 v1 v2 ray * triDenom v0 v1 v2 ray =
      det (v1.sub v0) (ray.origin.sub v0) ray.direction.neg := by
    unfold triV
    rw [mul_assoc, inv_mul_cancel₀ hdn, mul_one]
  have hT : triT v0 v1 v2 ray * triDenom v0 v1 v2 ray =
      det (v1.sub v0) (v2.sub v0) (ray.origin.sub v0) := by
    unfold triT
    rw [mul_assoc, inv_mul_cancel₀ hdn, mul_one]
  simp only [triDenom, det, Vec3.sub, Vec3.neg] at hU hV hT
  ext
  · dsimp only [Vec3.add, Vec3.smul]
    apply mul_right_cancel₀ hdn
    simp only [triDenom, det, Vec3.sub, Vec3.neg]
    linear_combination ray.direction.x * hT + (v0.x - v1.x) * hU + (v0.x - v2.x) * hV
  · dsimp only [Vec3.add, Vec3.smul]
    apply mul_right_cancel₀ hdn
    simp only [triDenom, det, Vec3.sub, Vec3.neg]
    linear_combination ray.direction.y * hT + (v0.y - v1.y) * hU + (v0.y - v2.y) * hV
  · dsimp only [Vec3.add, Vec3.smul]
    apply mul_right_cancel₀ hdn
    simp only [triDenom, det, Vec3.sub, Vec3.neg]
    linear_combination ray.direction.z * hT + (v0.z - v1.z) * hU + (v0.z - v2.z) * hV

/-- A convex combination respects a lower corner bound. -/
theorem extQ_convex_lo {lo : ExtQ} {a b c u v : ℚ} (hu : 0 ≤ u) (hv : 0 ≤ v)
    (huv : u + v ≤ 1) (ha : lo ≤ toExt a) (hb : lo ≤ toExt b) (hc : lo ≤ toExt c) :
    lo ≤ toExt (a * (1 - u - v) + (b * u + c * v)) := by
  cases lo with
  | none => exact bot_le
  | some w =>
    cases w with
    | top => exact absurd ha (not_top_le_toExt _)
    | coe q =>
      rw [show (some ((q : ℚ) : WithTop ℚ) : ExtQ) = toExt q from rfl,
        toExt_le_toExt] at ha hb hc ⊢
      nlinarith

/-- A convex combination respects an upper corner bound. -/
theorem extQ_convex_hi {hi : ExtQ} {a b c u v : ℚ} (hu : 0 ≤ u) (hv : 0 ≤ v)
    (huv : u + v ≤ 1) (ha : toExt a ≤ hi) (hb : toExt b ≤ hi) (hc : toExt c ≤ hi) :
    toExt (a * (1 - u - v) + (b * u + c * v)) ≤ hi := by
  cases hi with
  | none => exact absurd ha (not_le_of_lt (WithBot.bot_lt_coe _))
  | some w =>
    cases w with
    | top => exact le_top
    | coe q =>
      rw [show (some ((q : ℚ) : WithTop ℚ) : ExtQ) = toExt q from rfl,
        toExt_le_toExt] at ha hb hc ⊢
      nlinarith

/-- The ray point a face candidate certifies lies inside any box that
contains the face. -/
theorem hit_point_in_box {mesh : Mesh} {ray : Ray} {box : Aabb} {fi : ℕ} {t : ℚ}
    (hbox : faceInBox mesh box fi) (hc : faceCandidate mesh ray fi = some t) :
    vertInBox box (ray.origin.add (ray.direction.smul t)) ∧ 0 ≤ t := by
  rw [faceCandidate_def] at hc
  obtain ⟨hdn, hu0, hu1, hv0, huv, ht0, htT⟩ := candidate_spec hc
  subst htT
  refine ⟨?_, ht0⟩
  have hv1 : 0 ≤ 1 - triU (mesh.vertex (mesh.face fi).v0) (mesh.vertex (mesh.face fi).v1)
      (mesh.vertex (mesh.face fi).v2) ray - triV (mesh.vertex (mesh.face fi).v0)
      (mesh.vertex (mesh.face fi).v1) (mesh.vertex (mesh.face fi).v2) ray := by linarith
  rw [tri_position hdn]
  obtain ⟨⟨a1, a2⟩, ⟨a3, a4⟩, ⟨a5, a6⟩⟩ := hbox.1
  obtain ⟨⟨b1, b2⟩, ⟨b3, b4⟩, ⟨b5, b6⟩⟩ := hbox.2.1
  obtain ⟨⟨c1, c2⟩, ⟨c3, c4⟩, ⟨c5, c6⟩⟩ := hbox.2.2
  refine ⟨⟨?_, ?_⟩, ⟨?_, ?_⟩, ⟨?_, ?_⟩⟩ <;>
    dsimp only [Vec3.add, Vec3.smul] <;>
    first
      | (refine extQ_convex_lo hu0 hv0 huv ?_ ?_ ?_ <;> assumption)
      | (refine extQ_convex_hi hu0 hv0 huv ?_ ?_ ?_ <;> assumption)

/-- Pruning is safe: a face inside a box whose ray test fails has no
candidate, so the triangle test would reject it against every record. -/
theorem faceCandidate_none_of_reject {mesh : Mesh} {ray : Ray} {box : Aabb} {fi : ℕ}
    (hbox : faceInBox mesh box fi) (hray : box.intersect_ray ray = false) :
    faceCandidate mesh ray fi = none := by
  rcases hc : faceCandidate mesh ray fi with - | t
  · rfl
  · exfalso
    obtain ⟨hin, ht⟩ := hit_point_in_box hbox hc
    rw [intersect_ray_of_contains ht hin] at hray
    cases hray

/-- With every face candidate gone, the least candidate distance is
infinite. -/
theorem minCand_eq_top {mesh : Mesh} {ray : Ray} {l : List ℕ}
    (h : ∀ fi ∈ l, faceCandidate mesh ray fi = none) : minCand mesh ray l = ⊤ := by
  induction l with
  | nil => rfl
  | cons a rest ih =>
    rw [minCand_cons, ih (fun fi hfi => h fi (List.mem_cons_of_mem a hfi))]
    have ha : candDist mesh ray a = ⊤ := by
      unfold candDist
      rw [h a (List.mem_cons_self a rest)]
      rfl
    rw [ha, min_top_left]

/-- A finite candidate distance comes from a concrete candidate. -/
theorem candDist_ne_top {mesh : Mesh} {ray : Ray} {fi : ℕ}
    (h : candDist mesh ray fi ≠ ⊤) :
    ∃ t : ℚ, faceCandidate mesh ray fi = some t ∧
      candDist mesh ray fi = (t : WithTop ℚ) := by
  rcases hc : faceCandidate mesh ray fi with - | t
  · exact absurd (by unfold candDist; rw [hc]; rfl) h
  · exact ⟨t, rfl, by unfold candDist; rw [hc]; rfl⟩

/-- The geometric tree invariant the builder establishes: every node's box
encloses every face a query on that subtree can reach, recursively. -/
inductive GoodNode (mesh : Mesh) : BvhNode → Prop where
  | mk : ∀ (a : Aabb) (cs : List BvhNode) (idxs : List ℕ),
      (∀ fi ∈ treeFaces (.mk a cs idxs), faceInBox mesh a fi) →
      (∀ c ∈ cs, GoodNode mesh c) →
      GoodNode mesh (.mk a cs idxs)

/-- Specification of the child loop, given the specification of each
child: the final distance is the incoming distance capped by the least
candidate distance under the children, the flag accumulates exactly the
reachable faces with candidates at most the incoming distance, and the hit
flag passes through. -/
theorem intersectChildren_spec (mesh : Mesh) (ray : Ray) :
    ∀ (cs : List BvhNode),
      (∀ c ∈ cs, ∀ j : Intersection,
        (c.intersect mesh ray j).2.distance =
          min j.distance (minCand mesh ray (treeFaces c)) ∧
        ((c.intersect mesh ray j).1 = true ↔ ∃ fi ∈ treeFaces c, ∃ t : ℚ,
          faceCandidate mesh ray fi = some t ∧ (t : WithTop ℚ) ≤ j.distance) ∧
        (c.intersect mesh ray j).2.hit = j.hit) →
      ∀ (b : Bool) (i : Intersection),
        (intersectChildren cs mesh ray b i).2.distance =
          min i.distance (minCand mesh ray ((cs.map treeFaces).flatten)) ∧
        ((intersectChildren cs mesh ray b i).1 = true ↔ b = true ∨
          ∃ fi ∈ (cs.map treeFaces).flatten, ∃ t : ℚ,
            faceCandidate mesh ray fi = some t ∧ (t : WithTop ℚ) ≤ i.distance) ∧
        (intersectChildren cs mesh ray b i).2.hit = i.hit := by
  intro cs
  induction cs with
  | nil =>
    intro H b i
    refine ⟨by simp [intersectChildren, minCand_nil], ?_, rfl⟩
    simp [intersectChildren]
  | cons c rest ih =>
    intro H b i
    obtain ⟨hd, hb, hh⟩ := H c (List.mem_cons_self c rest) i
    rw [intersectChildren]
    obtain ⟨rd, rb, rh⟩ :=
      ih (fun c1 h1 j => H c1 (List.mem_cons_of_mem c h1) j)
        (b || (c.intersect mesh ray i).1) (c.intersect mesh ray i).2
    have hflat : ((c :: rest).map treeFaces).flatten =
        treeFaces c ++ (rest.map treeFaces).flatten := by
      rw [List.map_cons, List.flatten_cons]
    refine ⟨?_, ?_, ?_⟩
    · rw [rd, hd, hflat, minCand_append, min_assoc]
    · rw [rb, hflat]
      constructor
      · rintro (hor | ⟨fi, hfi, t, hct, hle⟩)
        · rcases Bool.or_eq_true_iff.1 hor with hb1 | hr1
          · exact Or.inl hb1
          · obtain ⟨fi, hfi, t, hct, hle⟩ := hb.1 hr1
            exact Or.inr ⟨fi, List.mem_append_left _ hfi, t, hct, hle⟩
        · refine Or.inr ⟨fi, List.mem_append_right _ hfi, t, hct, le_trans hle ?_⟩
          rw [hd]
          exact min_le_left _ _
      · rintro (hb1 | ⟨fi, hfi, t, hct, hle⟩)
        · exact Or.inl (by rw [hb1, Bool.true_or])
        · rcases List.mem_append.1 hfi with hfi1 | hfi2
          · have : (c.intersect mesh ray i).1 = true := hb.2 ⟨fi, hfi1, t, hct, hle⟩
            exact Or.inl (by rw [this, Bool.or_true])
          · by_cases hle2 : (t : WithTop ℚ) ≤ (c.intersect mesh ray i).2.distance
            · exact Or.inr ⟨fi, hfi2, t, hct, hle2⟩
            · push_neg at hle2
              rw [hd] at hle2
              rcases min_lt_iff.1 hle2 with hlt | hlt
              · exact absurd hle (not_le_of_lt hlt)
              · have hne : minCand mesh ray (treeFaces c) ≠ ⊤ :=
                  ne_top_of_lt (lt_of_lt_of_le hlt (le_trans hle le_top))
                obtain ⟨fj, hfj, hcd⟩ := minCand_attained mesh ray hne
                obtain ⟨t1, hct1, hcd1⟩ := candDist_ne_top (by rw [hcd]; exact hne)
                have ht1 : (t1 : WithTop ℚ) ≤ i.distance := by
                  rw [← hcd1, hcd]
                  exact le_trans (le_of_lt hlt) hle
                have : (c.intersect mesh ray i).1 = true := hb.2 ⟨fj, hfj, t1, hct1, ht1⟩
                exact Or.inl (by rw [this, Bool.or_true])
    · rw [rh, hh]

/-- Specification of the tree query on a node satisfying the builder
invariant: the final distance is the incoming distance capped by the least
candidate distance over the reachable faces, the returned flag says exactly
that some reachable face has a candidate at most the incoming distance, and
the hit flag is never touched. -/
theorem intersect_spec (mesh : Mesh) (ray : Ray) :
    ∀ (node : BvhNode), GoodNode mesh node → ∀ i : Intersection,
      (node.intersect mesh ray i).2.distance =
        min i.distance (minCand mesh ray (treeFaces node)) ∧
      ((node.intersect mesh ray i).1 = true ↔ ∃ fi ∈ treeFaces node, ∃ t : ℚ,
        faceCandidate mesh ray fi = some t ∧ (t : WithTop ℚ) ≤ i.distance) ∧
      (node.intersect mesh ray i).2.hit = i.hit := by
  intro node hgood
  induction hgood with
  | mk a cs idxs hcov hch ih =>
    intro i
    rw [BvhNode.intersect]
    by_cases hray : Aabb.intersect_ray a ray = true
    · rw [if_neg (by simp [hray])]
      by_cases hcs : cs.isEmpty
      · obtain rfl : cs = [] := List.isEmpty_iff.1 hcs
        rw [if_pos (show ([] : List BvhNode).isEmpty = true from rfl), treeFaces_leaf]
        refine ⟨intersectFaces_distance mesh ray idxs false i, ?_,
          intersectFaces_hit mesh ray idxs false i⟩
        rw [intersectFaces_true_iff mesh ray idxs false i]
        simp
      · rw [if_neg hcs]
        have hcs2 : cs ≠ [] := by simpa using hcs
        obtain ⟨hd, hb, hh⟩ := intersectChildren_spec mesh ray cs ih false i
        rw [treeFaces_node a hcs2]
        refine ⟨hd, ?_, hh⟩
        rw [hb]
        simp
    · rw [if_pos (by simpa using hray)]
      have hnone : ∀ fi ∈ treeFaces (BvhNode.mk a cs idxs),
          faceCandidate mesh ray fi = none := fun fi hfi =>
        faceCandidate_none_of_reject (hcov fi hfi)
          (Bool.not_eq_true _ ▸ Bool.of_not_eq_true hray)
      refine ⟨by rw [minCand_eq_top hnone, min_top_right], ?_, rfl⟩
      simp only [Bool.false_eq_true, false_iff, not_exists]
      rintro fi ⟨hfi, t, hct, -⟩
      rw [hnone fi hfi] at hct
      cases hct

/-- The sorted list has the length of the input. -/
theorem sortedByAxis_length (mesh : Mesh) (box : Aabb) (idxs : List ℕ) :
    (sortedByAxis mesh box idxs).length = idxs.length := by
  unfold sortedByAxis
  dsimp only
  split_ifs <;> exact List.length_insertionSort _ idxs

/-- The sorted list is a permutation of the input. -/
theorem sortedByAxis_perm (mesh : Mesh) (box : Aabb) (idxs : List ℕ) :
    (sortedByAxis mesh box idxs).Perm idxs := by
  unfold sortedByAxis
  dsimp only
  split_ifs <;> exact List.perm_insertionSort _ idxs

/-- Closed form of one builder step: a leaf holding the input verbatim when
half the input length is at most 2, otherwise an intermediate node over the
sorted halves. -/
theorem from_face_indexes_eq (mesh : Mesh) (idxs : List ℕ) :
    BvhNode.from_face_indexes mesh idxs =
      if idxs.length / 2 ≤ 2 then
        .mk (setAabb mesh idxs) [] idxs
      else
        .mk (setAabb mesh idxs)
          [BvhNode.from_face_indexes mesh
            ((sortedByAxis mesh (setAabb mesh idxs) idxs).take (idxs.length / 2)),
           BvhNode.from_face_indexes mesh
            ((sortedByAxis mesh (setAabb mesh idxs) idxs).drop (idxs.length / 2))]
          [] := by
  rw [BvhNode.from_face_indexes]

/-- The faces reachable from a built subtree are a permutation of the face
indexes it was built from. -/
theorem build_treeFaces_perm (mesh : Mesh) :
    ∀ (idxs : List ℕ), (treeFaces (BvhNode.from_face_indexes mesh idxs)).Perm idxs
  | idxs => by
    rw [from_face_indexes_eq]
    by_cases h : idxs.length / 2 ≤ 2
    · rw [if_pos h, treeFaces_leaf]
    · rw [if_neg h, treeFaces_node _ (by simp) _]
      have h1 : ((sortedByAxis mesh (setAabb mesh idxs) idxs).take (idxs.length / 2)).length
          < idxs.length := by
        rw [List.length_take, sortedByAxis_length]
        omega
      have h2 : ((sortedByAxis mesh (setAabb mesh idxs) idxs).drop (idxs.length / 2)).length
          < idxs.length := by
        rw [List.length_drop, sortedByAxis_length]
        omega
      have p1 := build_treeFaces_perm mesh
        ((sortedByAxis mesh (setAabb mesh idxs) idxs).take (idxs.length / 2))
      have p2 := build_treeFaces_perm mesh
        ((sortedByAxis mesh (setAabb mesh idxs) idxs).drop (idxs.length / 2))
      have hflat : ([BvhNode.from_face_indexes mesh
              ((sortedByAxis mesh (setAabb mesh idxs) idxs).take (idxs.length / 2)),
            BvhNode.from_face_indexes mesh
              ((sortedByAxis mesh (setAabb mesh idxs) idxs).drop (idxs.length / 2))].map
            treeFaces).flatten
          = treeFaces (BvhNode.from_face_indexes mesh
              ((sortedByAxis mesh (setAabb mesh idxs) idxs).take (idxs.length / 2))) ++
            treeFaces (BvhNode.from_face_indexes mesh
              ((sortedByAxis mesh (setAabb mesh idxs) idxs).drop (idxs.length / 2))) := by
        simp
      rw [hflat]
      refine List.Perm.trans (List.Perm.append p1 p2) ?_
      rw [List.take_append_drop]
      exact sortedByAxis_perm mesh (setAabb mesh idxs) idxs
termination_by idxs => idxs.length
decreasing_by
  · exact h1
  · exact h2

/-- The builder establishes the geometric tree invariant. -/
theorem build_good (mesh : Mesh) :
    ∀ (idxs : List ℕ), GoodNode mesh (BvhNode.from_face_indexes mesh idxs)
  | idxs => by
    rw [from_face_indexes_eq]
    by_cases h : idxs.length / 2 ≤ 2
    · rw [if_pos h]
      refine GoodNode.mk _ _ _ ?_ (by intro c hc; cases hc)
      rw [treeFaces_leaf]
      intro fi hfi
      exact setAabb_contains mesh idxs hfi
    · rw [if_neg h]
      have h1 : ((sortedByAxis mesh (setAabb mesh idxs) idxs).take (idxs.length / 2)).length
          < idxs.length := by
        rw [List.length_take, sortedByAxis_length]
        omega
      have h2 : ((sortedByAxis mesh (setAabb mesh idxs) idxs).drop (idxs.length / 2)).length
          < idxs.length := by
        rw [List.length_drop, sortedByAxis_length]
        omega
      refine GoodNode.mk _ _ _ ?_ ?_
      · rw [treeFaces_node _ (by simp) _]
        intro fi hfi
        have hmem : fi ∈ idxs := by
          have hperm := (build_treeFaces_perm mesh
            ((sortedByAxis mesh (setAabb mesh idxs) idxs).take (idxs.length / 2))).append
            (build_treeFaces_perm mesh
              ((sortedByAxis mesh (setAabb mesh idxs) idxs).drop (idxs.length / 2)))
          have hflat : ([BvhNode.from_face_indexes mesh
                ((sortedByAxis mesh (setAabb mesh idxs) idxs).take (idxs.length / 2)),
              BvhNode.from_face_indexes mesh
                ((sortedByAxis mesh (setAabb mesh idxs) idxs).drop (idxs.length / 2))].map
              treeFaces).flatten
              = treeFaces (BvhNode.from_face_indexes mesh
                  ((sortedByAxis mesh (setAabb mesh idxs) idxs).take (idxs.length / 2))) ++
                treeFaces (BvhNode.from_face_indexes mesh
                  ((sortedByAxis mesh (setAabb mesh idxs) idxs).drop (idxs.length / 2))) := by
            simp
          rw [hflat] at hfi
          have := hperm.mem_iff.1 hfi
          rw [List.take_append_drop] at this
          exact (sortedByAxis_perm mesh (setAabb mesh idxs) idxs).mem_iff.1 this
        exact setAabb_contains mesh idxs hmem
      · intro c hc
        rcases List.mem_cons.1 hc with rfl | hc2
        · exact build_good mesh _
        · rcases List.mem_cons.1 hc2 with rfl | hc3
          · exact build_good mesh _
          · cases hc3
termination_by idxs => idxs.length
decreasing_by
  · exact h1
  · exact h2

/-- Structural strong induction over BVH nodes. -/
theorem bvh_strong_induction {P : BvhNode → Prop}
    (h : ∀ a cs idxs, (∀ c ∈ cs, P c) → P (.mk a cs idxs)) : ∀ node, P node
  | .mk a cs idxs => h a cs idxs (fun c hc => bvh_strong_induction h c)
termination_by node => sizeOf node
decreasing_by
  have := List.sizeOf_lt_of_mem hc
  simp only [BvhNode.mk.sizeOf_spec]
  omega

/-- One triangle test never loosens the record distance. -/
theorem intersect_polygon_distance_le (v0 v1 v2 : Vec3 ℚ) (ray : Ray) (i : Intersection) :
    (intersect_polygon v0 v1 v2 ray i).2.distance ≤ i.distance := by
  rw [intersect_polygon_distance]
  exact min_le_left _ _

/-- The sphere test never loosens the record distance. -/
theorem sphere_intersect_distance_le (s : Sphere) (ray : Ray) (i : Intersection) :
    (s.intersect ray i).2.distance ≤ i.distance := by
  unfold Sphere.intersect
  dsimp only
  split_ifs with h
  · exact le_of_lt h.2.2
  · exact le_refl _

/-- The plane test never loosens the record distance. -/
theorem plane_intersect_distance_le (p : Plane) (ray : Ray) (i : Intersection) :
    (p.intersect ray i).2.distance ≤ i.distance := by
  unfold Plane.intersect
  dsimp only
  split_ifs with h
  · exact le_of_lt h.2
  · exact le_refl _

/-- The leaf loop never loosens the record distance. -/
theorem intersectFaces_distance_le (mesh : Mesh) (ray : Ray) (idxs : List ℕ)
    (b : Bool) (i : Intersection) :
    (intersectFaces mesh ray idxs b i).2.distance ≤ i.distance := by
  rw [intersectFaces_distance]
  exact min_le_left _ _

/-- The child loop never loosens the record distance, given that no child
query does. -/
theorem intersectChildren_distance_le (mesh : Mesh) (ray : Ray) :
    ∀ (cs : List BvhNode),
      (∀ c ∈ cs, ∀ j : Intersection, (c.intersect mesh ray j).2.distance ≤ j.distance) →
      ∀ (b : Bool) (i : Intersection),
        (intersectChildren cs mesh ray b i).2.distance ≤ i.distance
  | [], _, b, i => le_refl _
  | c :: rest, H, b, i => by
    rw [intersectChildren]
    exact le_trans
      (intersectChildren_distance_le mesh ray rest
        (fun c1 h1 j => H c1 (List.mem_cons_of_mem c h1) j) _ _)
      (H c (List.mem_cons_self c rest) i)

/-- A whole-tree query never loosens the record distance, on any tree. -/
theorem bvh_intersect_distance_le (mesh : Mesh) (ray : Ray) :
    ∀ (node : BvhNode) (i : Intersection),
      (node.intersect mesh ray i).2.distance ≤ i.distance := by
  refine bvh_strong_induction ?_
  intro a cs idxs ih i
  rw [BvhNode.intersect]
  by_cases hray : Aabb.intersect_ray a ray = true
  · rw [if_neg (by simp [hray])]
    by_cases hcs : cs.isEmpty
    · rw [if_pos hcs]
      exact intersectFaces_distance_le mesh ray idxs false i
    · rw [if_neg hcs]
      exact intersectChildren_distance_le mesh ray cs ih false i
  · rw [if_pos (by simpa using hray)]

/-- Only leaves hold face indexes. -/
inductive LeafOnly : BvhNode → Prop where
  | mk : ∀ (a : Aabb) (cs : List BvhNode) (idxs : List ℕ),
      (cs ≠ [] → idxs = []) → (∀ c ∈ cs, LeafOnly c) → LeafOnly (.mk a cs idxs)

/-- The builder stores face indexes at leaves only. -/
theorem build_leafOnly (mesh : Mesh) :
    ∀ (idxs : List ℕ), LeafOnly (BvhNode.from_face_indexes mesh idxs)
  | idxs => by
    rw [from_face_indexes_eq]
    by_cases h : idxs.length / 2 ≤ 2
    · rw [if_pos h]
      exact LeafOnly.mk _ _ _ (fun hne => absurd rfl hne) (fun c hc => by cases hc)
    · rw [if_neg h]
      have h1 : ((sortedByAxis mesh (setAabb mesh idxs) idxs).take (idxs.length / 2)).length
          < idxs.length := by
        rw [List.length_take, sortedByAxis_length]
        omega
      have h2 : ((sortedByAxis mesh (setAabb mesh idxs) idxs).drop (idxs.length / 2)).length
          < idxs.length := by
        rw [List.length_drop, sortedByAxis_length]
        omega
      refine LeafOnly.mk _ _ _ (fun _ => rfl) ?_
      intro c hc
      rcases List.mem_cons.1 hc with rfl | hc2
      · exact build_leafOnly mesh _
      · rcases List.mem_cons.1 hc2 with rfl | hc3
        · exact build_leafOnly mesh _
        · cases hc3
termination_by idxs => idxs.length
decreasing_by
  · exact h1
  · exact h2

/-- Modelled from the spec: consts::EPS (src/consts.rs is not under src/),
the small positive threshold of the up-vector selection; its exact value is
not fixed by the spec, and no theorem below depends on it beyond 0 < EPS
and EPS < 1. -/
noncomputable def EPS : ℝ := 1 / 10000

/-- Modelled from the spec: consts::PI2 (src/consts.rs is not under src/),
the full angle 2 pi of the azimuth computation. -/
noncomputable def PI2 : ℝ := 2 * Real.pi

/-- The up-vector selection of importance_sample_diffuse (src/brdf.rs line
7): (0,1,0) when the magnitude of the x component of the normal exceeds
EPS, (1,0,0) otherwise. -/
noncomputable def diffuse_up (normal : Vec3 ℝ) : Vec3 ℝ :=
  if |normal.x| > EPS then ⟨0, 1, 0⟩ else ⟨1, 0, 0⟩

/-- Mirror of importance_sample_diffuse (src/brdf.rs lines 6-27): build the
tangent frame from the up helper, then map the two uniform draws through
the inverse transform of the cosine density. -/
noncomputable def importance_sample_diffuse (random : ℝ × ℝ) (normal : Vec3 ℝ) : Vec3 ℝ :=
  let up := diffuse_up normal
  let tangent := (up.cross normal).normalize Real.sqrt
  let binormal := normal.cross tangent
  let phi := PI2 * random.1
  let r := random.2
  (((tangent.smul (Real.cos phi)).add (binormal.smul (Real.sin phi))).smul
    (Real.sqrt r)).add (normal.smul (Real.sqrt (1 - r)))

/-- The up-vector selection of importance_sample_ggx (src/brdf.rs line 40),
textually identical to the diffuse one. -/
noncomputable def ggx_up (normal : Vec3 ℝ) : Vec3 ℝ :=
  if |normal.x| > EPS then ⟨0, 1, 0⟩ else ⟨1, 0, 0⟩

/-- Mirror of importance_sample_ggx (src/brdf.rs lines 32-46): sample the
half-vector in tangent space from the GGX density, then rotate it into the
frame of the normal. -/
noncomputable def importance_sample_ggx (random : ℝ × ℝ) (normal : Vec3 ℝ)
    (roughness : ℝ) : Vec3 ℝ :=
  let a := roughness * roughness
  let phi := PI2 * random.1
  let cos_theta := Real.sqrt ((1 - random.2) / (1 + (a * a - 1) * random.2))
  let sin_theta := Real.sqrt (1 - cos_theta * cos_theta)
  let h : Vec3 ℝ := ⟨sin_theta * Real.cos phi, sin_theta * Real.sin phi, cos_theta⟩
  let up := ggx_up normal
  let tangent_x := (up.cross normal).normalize Real.sqrt
  let tangent_y := normal.cross tangent_x
  ((tangent_x.smul h.x).add (tangent_y.smul h.y)).add (normal.smul h.z)

/-- A vector is orthogonal to its cross product with anything. -/
theorem dot_cross_left {α : Type} [Field α] (a b : Vec3 α) : a.dot (a.cross b) = 0 := by
  unfold Vec3.dot Vec3.cross
  ring

/-- A vector is orthogonal to anything crossed with it. -/
theorem dot_cross_right {α : Type} [Field α] (a b : Vec3 α) : b.dot (a.cross b) = 0 := by
  unfold Vec3.dot Vec3.cross
  ring

/-- Lagrange identity for the squared length of a cross product. -/
theorem norm_cross {α : Type} [Field α] (a b : Vec3 α) :
    (a.cross b).norm = a.norm * b.norm - a.dot b * a.dot b := by
  unfold Vec3.norm Vec3.cross Vec3.dot
  ring

/-- Dot against a scaled vector. -/
theorem dot_smul {α : Type} [Field α] (a b : Vec3 α) (s : α) :
    a.dot (b.smul s) = a.dot b * s := by
  unfold Vec3.dot Vec3.smul
  ring

/-- Normalizing a vector of positive squared length yields a unit vector,
for the real square root. -/
theorem norm_normalize {v : Vec3 ℝ} (h : 0 < v.norm) :
    (v.normalize Real.sqrt).norm = 1 := by
  unfold Vec3.normalize
  dsimp only
  unfold Vec3.norm at h ⊢
  have hs : Real.sqrt (v.x * v.x + v.y * v.y + v.z * v.z) *
      Real.sqrt (v.x * v.x + v.y * v.y + v.z * v.z) =
      v.x * v.x + v.y * v.y + v.z * v.z := Real.mul_self_sqrt h.le
  have hkey : v.x * v.x + v.y * v.y + v.z * v.z ≠ 0 := ne_of_gt h
  have hinv : (Real.sqrt (v.x * v.x + v.y * v.y + v.z * v.z))⁻¹ *
      (Real.sqrt (v.x * v.x + v.y * v.y + v.z * v.z))⁻¹ =
      (v.x * v.x + v.y * v.y + v.z * v.z)⁻¹ := by
    rw [← mul_inv, hs]
  have hexp : ∀ a b c inv : ℝ,
      a * inv * (a * inv) + b * inv * (b * inv) + c * inv * (c * inv) =
        (a * a + b * b + c * c) * (inv * inv) := by
    intros
    ring
  rw [hexp v.x v.y v.z ((Real.sqrt (v.x * v.x + v.y * v.y + v.z * v.z))⁻¹), hinv,
    mul_inv_cancel₀ hkey]

/-- Expansion of the squared length of the diffuse sample shape. -/
theorem norm_sample_shape (T B N : Vec3 ℝ) (c s q w : ℝ) :
    ((((T.smul c).add (B.smul s)).smul q).add (N.smul w)).norm =
      q * q * (c * c * T.norm + 2 * (c * s) * T.dot B + s * s * B.norm) +
        2 * q * w * (c * N.dot T + s * N.dot B) + w * w * N.norm := by
  unfold Vec3.norm Vec3.add Vec3.smul Vec3.dot
  ring

/-- For a unit normal, the chosen up helper is never parallel to it: the
cross product has positive squared length. -/
theorem up_cross_norm_pos {normal : Vec3 ℝ} (hn : normal.norm = 1) :
    0 < ((diffuse_up normal).cross normal).norm := by
  unfold diffuse_up
  split_ifs with h
  · unfold Vec3.cross Vec3.norm
    dsimp only
    have h1 : (0 : ℝ) < EPS := by norm_num [EPS]
    have h3 : normal.x ≠ 0 := abs_pos.1 (lt_trans h1 h)
    nlinarith [mul_self_pos.2 h3, mul_self_nonneg normal.z]
  · unfold Vec3.cross Vec3.norm
    unfold Vec3.norm at hn
    dsimp only
    push_neg at h
    rw [show EPS = 1 / 10000 from rfl] at h
    obtain ⟨h4, h5⟩ := abs_le.1 h
    have hx2 : normal.x * normal.x ≤ 1 / 10000 * (1 / 10000) := by nlinarith
    nlinarith [hx2, hn]

/-- C10: the cosine-weighted diffuse sample of a unit normal is unit
length (squared norm 1) for every pair of draws whose radial draw lies in
[0,1]: the squared norm reduces to r (cos^2 + sin^2) + (1 - r) = 1 over the
orthonormal tangent / binormal / normal frame. -/
theorem diffuse_sample_norm (u1 u2 : ℝ) (normal : Vec3 ℝ) (hn : normal.norm = 1)
    (h0 : 0 ≤ u2) (h1 : u2 ≤ 1) :
    (importance_sample_diffuse (u1, u2) normal).norm = 1 := by
  unfold importance_sample_diffuse
  dsimp only
  set T := ((diffuse_up normal).cross normal).normalize Real.sqrt with hTdef
  set B := normal.cross T with hBdef
  rw [norm_sample_shape]
  have hw := up_cross_norm_pos hn
  have hTn : T.norm = 1 := norm_normalize hw
  have hNT : normal.dot T = 0 := by
    rw [hTdef]
    unfold Vec3.normalize
    dsimp only
    have hd := dot_smul normal ((diffuse_up normal).cross normal)
      ((Real.sqrt ((diffuse_up normal).cross normal).norm)⁻¹)
    unfold Vec3.smul at hd
    rw [hd, dot_cross_right, zero_mul]
  have hBn : B.norm = 1 := by
    rw [hBdef, norm_cross, hTn, hn, hNT]
    ring
  have hTB : T.dot B = 0 := by rw [hBdef]; exact dot_cross_right normal T
  have hNB : normal.dot B = 0 := by rw [hBdef]; exact dot_cross_left normal T
  rw [hTn, hBn, hn, hNT, hNB, hTB]
  have hq : Real.sqrt u2 * Real.sqrt u2 = u2 := Real.mul_self_sqrt h0
  have hw2 : Real.sqrt (1 - u2) * Real.sqrt (1 - u2) = 1 - u2 :=
    Real.mul_self_sqrt (by linarith)
  have trig : Real.cos (PI2 * u1) * Real.cos (PI2 * u1) +
      Real.sin (PI2 * u1) * Real.sin (PI2 * u1) = 1 := by
    nlinarith [Real.sin_sq_add_cos_sq (PI2 * u1)]
  linear_combination (Real.cos (PI2 * u1) * Real.cos (PI2 * u1) +
    Real.sin (PI2 * u1) * Real.sin (PI2 * u1)) * hq + hw2 + u2 * trig

/-- C8: GGX half-vector sampling at roughness 0 returns the normal itself
for every unit normal and every draw pair whose second component lies in
[0,1). -/
theorem ggx_roughness_zero (u1 u2 : ℝ) (normal : Vec3 ℝ) (hn : normal.norm = 1)
    (h0 : 0 ≤ u2) (h1 : u2 < 1) :
    importance_sample_ggx (u1, u2) normal 0 = normal := by
  unfold importance_sample_ggx
  dsimp only
  rw [show 1 + ((0 : ℝ) * 0 * (0 * 0) - 1) * u2 = 1 - u2 from by ring]
  rw [div_self (ne_of_gt (by linarith : (0 : ℝ) < 1 - u2))]
  rw [Real.sqrt_one]
  rw [show (1 : ℝ) - 1 * 1 = 0 from by ring, Real.sqrt_zero]
  ext <;> (dsimp only [Vec3.add, Vec3.smul]; ring)

/-- Two booleans agreeing as propositions are equal. -/
theorem bool_eq_of_iff {a b : Bool} (h : (a = true) ↔ (b = true)) : a = b := by
  cases a <;> cases b <;> simp_all

/-- The child loop never changes the hit flag, given that no child query
does. -/
theorem intersectChildren_hit (mesh : Mesh) (ray : Ray) :
    ∀ (cs : List BvhNode),
      (∀ c ∈ cs, ∀ j : Intersection, (c.intersect mesh ray j).2.hit = j.hit) →
      ∀ (b : Bool) (i : Intersection),
        (intersectChildren cs mesh ray b i).2.hit = i.hit
  | [], _, b, i => rfl
  | c :: rest, H, b, i => by
    rw [intersectChildren, intersectChildren_hit mesh ray rest
      (fun c1 h1 j => H c1 (List.mem_cons_of_mem c h1) j)]
    exact H c (List.mem_cons_self c rest) i

/-- With a zero denominator the candidate vanishes. -/
theorem candidate_of_denom_zero {v0 v1 v2 : Vec3 ℚ} {ray : Ray}
    (h : triDenom v0 v1 v2 ray = 0) : candidate v0 v1 v2 ray = none := by
  unfold candidate
  rw [if_pos h]

/-- With a nonzero denominator, a vanished candidate pins down one of the
barycentric or sign rejections. -/
theorem candidate_none_conditions {v0 v1 v2 : Vec3 ℚ} {ray : Ray}
    (hdn : triDenom v0 v1 v2 ray ≠ 0) (h : candidate v0 v1 v2 ray = none) :
    triU v0 v1 v2 ray < 0 ∨ triU v0 v1 v2 ray > 1 ∨ triV v0 v1 v2 ray < 0 ∨
      triU v0 v1 v2 ray + triV v0 v1 v2 ray > 1 ∨ triT v0 v1 v2 ray < 0 := by
  unfold candidate at h
  split_ifs at h with h1 h2 h3 h4
  · exact absurd h1 hdn
  · rcases h2 with h2 | h2
    · exact Or.inl h2
    · exact Or.inr (Or.inl h2)
  · rcases h3 with h3 | h3
    · exact Or.inr (Or.inr (Or.inl h3))
    · exact Or.inr (Or.inr (Or.inr (Or.inl h3)))
  · exact Or.inr (Or.inr (Or.inr (Or.inr h4)))

/-- Concrete mesh of the refinement counterexample: two overlapping
triangles in the plane z = 1 that the ray meets at the same parameter 1
with different surface coordinates, plus four degenerate far faces that
make the builder sort and split; the sort reverses the traversal order of
the two overlapping faces relative to index order, and the accepted tie
t = distance then keeps different faces on the two sides. -/
def cexMesh : Mesh :=
  { vertexes :=
      [⟨0, 0, 1⟩, ⟨1, 0, 1⟩, ⟨0, 1, 1⟩,
       ⟨-(1/2), -(1/2), 1⟩, ⟨3/2, -(1/2), 1⟩, ⟨-(1/2), 3/2, 1⟩,
       ⟨2, 0, 1⟩, ⟨3, 0, 1⟩, ⟨4, 0, 1⟩, ⟨5, 0, 1⟩]
    faces :=
      [⟨0, 1, 2⟩, ⟨3, 4, 5⟩, ⟨6, 6, 6⟩, ⟨7, 7, 7⟩, ⟨8, 8, 8⟩, ⟨9, 9, 9⟩] }

/-- The ray of the refinement counterexample: the positive z axis. -/
def cexRay : Ray := ⟨⟨0, 0, 0⟩, ⟨0, 0, 1⟩⟩

/-- A one-triangle mesh whose face the z axis ray hits. -/
def oneMesh : Mesh :=
  { vertexes := [⟨0, 0, 1⟩, ⟨1, 0, 1⟩, ⟨0, 1, 1⟩], faces := [⟨0, 1, 2⟩] }

/-- A five-face mesh (all faces degenerate at the origin). -/
def mesh5 : Mesh := { vertexes := [⟨0, 0, 0⟩], faces := List.replicate 5 ⟨0, 0, 0⟩ }

/-- A ray whose origin lies on the unit triangle in the plane z = 0, so the
triangle test computes the parameter t = 0 exactly. -/
def zeroRay : Ray := ⟨⟨1/4, 1/4, 0⟩, ⟨0, 0, -1⟩⟩

/-- A ray parallel to the plane of the unit triangle at z = 0. -/
def parRay : Ray := ⟨⟨1/4, 1/4, 5⟩, ⟨1, 0, 0⟩⟩

set_option maxRecDepth 1000000 in
/-- C1 counterexample: on cexMesh and cexRay the BVH query and the
brute-force index-order loop finish with different hit records (they keep
different faces of a distance tie, so the surface coordinates differ),
refuting the claimed equality of the final records. -/
theorem C1_counterexample :
    ((BvhNode.from_mesh cexMesh).intersect cexMesh cexRay Intersection.empty).2 ≠
      (bruteForce cexMesh cexRay).2 := by
  with_unfolding_all decide

/-- C1 (amended): for every mesh and ray, the BVH query on a fresh record
returns the same flag and the same final nearest-hit distance as testing
every face in index order against another fresh record; the remaining
record fields can differ when distinct faces tie at the minimal distance,
because the code accepts a candidate equal to the current distance and the
two orders then keep different tying faces. -/
theorem C1_bvh_agrees_with_bruteforce (mesh : Mesh) (ray : Ray) :
    ((BvhNode.from_mesh mesh).intersect mesh ray Intersection.empty).1 =
      (bruteForce mesh ray).1 ∧
    ((BvhNode.from_mesh mesh).intersect mesh ray Intersection.empty).2.distance =
      (bruteForce mesh ray).2.distance := by
  obtain ⟨hd, hb, -⟩ := intersect_spec mesh ray (BvhNode.from_mesh mesh)
    (build_good mesh (List.range mesh.faces.length)) Intersection.empty
  have hperm : (treeFaces (BvhNode.from_mesh mesh)).Perm (List.range mesh.faces.length) :=
    build_treeFaces_perm mesh (List.range mesh.faces.length)
  have hbd : (bruteForce mesh ray).2.distance =
      min Intersection.empty.distance (minCand mesh ray (List.range mesh.faces.length)) :=
    intersectFaces_distance mesh ray _ false Intersection.empty
  have hbb : (bruteForce mesh ray).1 = true ↔ false = true ∨
      ∃ fi ∈ List.range mesh.faces.length, ∃ t : ℚ,
        faceCandidate mesh ray fi = some t ∧ (t : WithTop ℚ) ≤ Intersection.empty.distance :=
    intersectFaces_true_iff mesh ray (List.range mesh.faces.length) false Intersection.empty
  constructor
  · apply bool_eq_of_iff
    rw [hb, hbb]
    simp only [Bool.false_eq_true, false_or]
    constructor
    · rintro ⟨fi, hfi, t, hct, hle⟩
      exact ⟨fi, hperm.mem_iff.1 hfi, t, hct, hle⟩
    · rintro ⟨fi, hfi, t, hct, hle⟩
      exact ⟨fi, hperm.mem_iff.2 hfi, t, hct, hle⟩
  · rw [hd, hbd, minCand_perm mesh ray hperm]

/-- C2: every intersection test of the core — triangle, sphere, plane, and
the whole-tree query — either leaves the record unchanged or writes a
distance no larger than the current one, so the distance field never
increases and repeated queries against the same record only tighten it. -/
theorem C2_distance_monotone (v0 v1 v2 : Vec3 ℚ) (s : Sphere) (p : Plane)
    (node : BvhNode) (mesh : Mesh) (ray : Ray) (i : Intersection) :
    (intersect_polygon v0 v1 v2 ray i).2.distance ≤ i.distance ∧
    (s.intersect ray i).2.distance ≤ i.distance ∧
    (p.intersect ray i).2.distance ≤ i.distance ∧
    (node.intersect mesh ray i).2.distance ≤ i.distance :=
  ⟨intersect_polygon_distance_le v0 v1 v2 ray i, sphere_intersect_distance_le s ray i,
   plane_intersect_distance_le p ray i, bvh_intersect_distance_le mesh ray node i⟩

/-- C3 counterexample: on the unit triangle with a ray whose origin lies in
the triangle plane, the computed parameter t equals 0 exactly, yet the test
accepts and writes distance 0 — the claim says a candidate with t = 0 is
rejected. -/
theorem C3_counterexample :
    triT ⟨0, 0, 0⟩ ⟨1, 0, 0⟩ ⟨0, 1, 0⟩ zeroRay = 0 ∧
    (intersect_polygon ⟨0, 0, 0⟩ ⟨1, 0, 0⟩ ⟨0, 1, 0⟩ zeroRay Intersection.empty).1 = true ∧
    (intersect_polygon ⟨0, 0, 0⟩ ⟨1, 0, 0⟩ ⟨0, 1, 0⟩ zeroRay
      Intersection.empty).2.distance = ((0 : ℚ) : WithTop ℚ) := by
  refine ⟨?_, ?_, ?_⟩ <;> with_unfolding_all decide

/-- C3 (amended): with a nonzero denominator the triangle test rejects —
returning false with the record untouched — exactly when u is outside
[0,1], v is negative, u+v exceeds 1, t is strictly negative, or t strictly
exceeds the current best distance; candidates with t = 0 or t equal to the
current best are accepted, so a tie replaces the earlier hit. -/
theorem C3_rejection_characterization (v0 v1 v2 : Vec3 ℚ) (ray : Ray) (i : Intersection)
    (hdn : triDenom v0 v1 v2 ray ≠ 0) :
    intersect_polygon v0 v1 v2 ray i =
      if triU v0 v1 v2 ray < 0 ∨ triU v0 v1 v2 ray > 1 ∨ triV v0 v1 v2 ray < 0 ∨
          triU v0 v1 v2 ray + triV v0 v1 v2 ray > 1 ∨ triT v0 v1 v2 ray < 0 ∨
          ((triT v0 v1 v2 ray : ℚ) : WithTop ℚ) > i.distance
      then (false, i)
      else (true, polyWrite v0 v1 v2 ray i) := by
  rw [intersect_polygon_eq]
  rcases hc : candidate v0 v1 v2 ray with - | t
  · rw [Option.elim_none,
      if_pos (by have := candidate_none_conditions hdn hc; tauto)]
  · rw [Option.elim_some]
    obtain ⟨-, hu0, hu1, hv0, huv, ht0, htT⟩ := candidate_spec hc
    subst htT
    by_cases hgt : ((triT v0 v1 v2 ray : ℚ) : WithTop ℚ) > i.distance
    · rw [if_pos hgt, if_pos (by tauto)]
    · rw [if_neg hgt, if_neg ?_]
      simp only [not_or]
      exact ⟨not_lt.2 hu0, not_lt.2 hu1, not_lt.2 hv0, not_lt.2 huv, not_lt.2 ht0, hgt⟩

/-- C3 witness: the characterization applied to the unit triangle and the
in-plane-origin ray, whose denominator is nonzero. -/
theorem C3_rejection_characterization_witness :
    triDenom ⟨0, 0, 0⟩ ⟨1, 0, 0⟩ ⟨0, 1, 0⟩ zeroRay ≠ 0 ∧
    intersect_polygon ⟨0, 0, 0⟩ ⟨1, 0, 0⟩ ⟨0, 1, 0⟩ zeroRay Intersection.empty =
      (if triU ⟨0, 0, 0⟩ ⟨1, 0, 0⟩ ⟨0, 1, 0⟩ zeroRay < 0 ∨
          triU ⟨0, 0, 0⟩ ⟨1, 0, 0⟩ ⟨0, 1, 0⟩ zeroRay > 1 ∨
          triV ⟨0, 0, 0⟩ ⟨1, 0, 0⟩ ⟨0, 1, 0⟩ zeroRay < 0 ∨
          triU ⟨0, 0, 0⟩ ⟨1, 0, 0⟩ ⟨0, 1, 0⟩ zeroRay +
            triV ⟨0, 0, 0⟩ ⟨1, 0, 0⟩ ⟨0, 1, 0⟩ zeroRay > 1 ∨
          triT ⟨0, 0, 0⟩ ⟨1, 0, 0⟩ ⟨0, 1, 0⟩ zeroRay < 0 ∨
          ((triT ⟨0, 0, 0⟩ ⟨1, 0, 0⟩ ⟨0, 1, 0⟩ zeroRay : ℚ) : WithTop ℚ) >
            Intersection.empty.distance
       then (false, Intersection.empty)
       else (true, polyWrite ⟨0, 0, 0⟩ ⟨1, 0, 0⟩ ⟨0, 1, 0⟩ zeroRay Intersection.empty)) :=
  ⟨by with_unfolding_all decide,
   C3_rejection_characterization _ _ _ _ _ (by with_unfolding_all decide)⟩

set_option maxRecDepth 100000 in
/-- C4 counterexample: on a one-triangle mesh the BVH query returns true,
yet the record's hit flag stays false — the triangle test never writes it,
refuting the claim that a true query leaves the flag true. -/
theorem C4_counterexample :
    ((BvhNode.from_mesh oneMesh).intersect oneMesh cexRay Intersection.empty).1 = true ∧
    ((BvhNode.from_mesh oneMesh).intersect oneMesh cexRay Intersection.empty).2.hit =
      false := by
  with_unfolding_all decide

/-- C4 (amended): the query's boolean return is the accumulated truth of
the subtree, but the record's hit flag is never modified by a BVH query on
any node — the triangle test does not write it — so a fresh record keeps
hit = false even after a successful query. -/
theorem C4_hit_flag_unchanged (mesh : Mesh) (ray : Ray) :
    ∀ (node : BvhNode) (i : Intersection),
      (node.intersect mesh ray i).2.hit = i.hit := by
  refine bvh_strong_induction ?_
  intro a cs idxs ih i
  rw [BvhNode.intersect]
  by_cases hray : Aabb.intersect_ray a ray = true
  · rw [if_neg (by simp [hray])]
    by_cases hcs : cs.isEmpty
    · rw [if_pos hcs]
      exact intersectFaces_hit mesh ray idxs false i
    · rw [if_neg hcs]
      exact intersectChildren_hit mesh ray cs ih false i
  · rw [if_pos (by simpa using hray)]

set_option maxRecDepth 100000 in
/-- C5 counterexample: a five-face subset builds a single leaf holding all
five indexes, refuting the claimed threshold of four or fewer. -/
theorem C5_counterexample :
    (BvhNode.from_mesh mesh5).children.isEmpty = true ∧
    (BvhNode.from_mesh mesh5).face_indexes = [0, 1, 2, 3, 4] ∧
    (BvhNode.from_mesh mesh5).face_indexes.length = 5 := by
  with_unfolding_all decide

/-- C5 (amended): the builder produces a leaf holding the input indexes
verbatim exactly when the subset has 5 or fewer faces (the code tests
length / 2 ≤ 2); any larger subset becomes an intermediate node holding no
indexes of its own, with two children built from the sorted list split at
its midpoint length / 2. -/
theorem C5_leaf_threshold (mesh : Mesh) (idxs : List ℕ) :
    ((BvhNode.from_face_indexes mesh idxs).children = [] ↔ idxs.length ≤ 5) ∧
    (BvhNode.from_face_indexes mesh idxs).face_indexes =
      (if idxs.length ≤ 5 then idxs else []) ∧
    (BvhNode.from_face_indexes mesh idxs).children =
      (if idxs.length ≤ 5 then ([] : List BvhNode)
       else [BvhNode.from_face_indexes mesh
              ((sortedByAxis mesh (setAabb mesh idxs) idxs).take (idxs.length / 2)),
             BvhNode.from_face_indexes mesh
              ((sortedByAxis mesh (setAabb mesh idxs) idxs).drop (idxs.length / 2))]) := by
  have hiff : idxs.length / 2 ≤ 2 ↔ idxs.length ≤ 5 := by omega
  rw [from_face_indexes_eq]
  by_cases h : idxs.length ≤ 5
  · rw [if_pos (hiff.2 h)]
    exact ⟨by simp [BvhNode.children, h], by simp [BvhNode.face_indexes, h],
      by simp [BvhNode.children, h]⟩
  · rw [if_neg (fun hc => h (hiff.1 hc))]
    exact ⟨by simp [BvhNode.children, h], by simp [BvhNode.face_indexes, h],
      by simp [BvhNode.children, h]⟩

/-- C6 counterexample: at the normal (0,0,1) — whose x magnitude does not
exceed the threshold — both routines select (1,0,0), not the (0,1,0) the
claim prescribes for that case: the claim states the branches the wrong way
round. -/
theorem C6_counterexample :
    |(0 : ℝ)| ≤ EPS ∧
    diffuse_up ⟨0, 0, 1⟩ = (⟨1, 0, 0⟩ : Vec3 ℝ) ∧
    ggx_up ⟨0, 0, 1⟩ = (⟨1, 0, 0⟩ : Vec3 ℝ) ∧
    (⟨1, 0, 0⟩ : Vec3 ℝ) ≠ (⟨0, 1, 0⟩ : Vec3 ℝ) := by
  refine ⟨by norm_num [EPS], ?_, ?_, ?_⟩
  · unfold diffuse_up
    rw [if_neg (by norm_num [EPS])]
  · unfold ggx_up
    rw [if_neg (by norm_num [EPS])]
  · simp [Vec3.mk.injEq]

/-- C6 (amended): both sampling routines select the same up helper for the
same normal: (0,1,0) when the magnitude of the normal's x component exceeds
the small threshold, and (1,0,0) otherwise — the opposite orientation of
the branches from the one claimed. -/
theorem C6_up_selection (normal : Vec3 ℝ) :
    diffuse_up normal = ggx_up normal ∧
    diffuse_up normal =
      (if |normal.x| > EPS then (⟨0, 1, 0⟩ : Vec3 ℝ) else ⟨1, 0, 0⟩) :=
  ⟨rfl, rfl⟩

/-- C7: when the determinant of (edge1, edge2, -direction) is exactly zero
the triangle test returns false and leaves the record unchanged — an exact
equality test with no epsilon and no error. -/
theorem C7_parallel_rejects (v0 v1 v2 : Vec3 ℚ) (ray : Ray) (i : Intersection)
    (h : triDenom v0 v1 v2 ray = 0) :
    intersect_polygon v0 v1 v2 ray i = (false, i) :=
  candidate_eq_none (candidate_of_denom_zero h) i

/-- C7 witness: the unit triangle with an in-plane ray direction has a zero
denominator and the test rejects without touching the record. -/
theorem C7_parallel_rejects_witness :
    triDenom ⟨0, 0, 0⟩ ⟨1, 0, 0⟩ ⟨0, 1, 0⟩ parRay = 0 ∧
    intersect_polygon ⟨0, 0, 0⟩ ⟨1, 0, 0⟩ ⟨0, 1, 0⟩ parRay Intersection.empty =
      (false, Intersection.empty) :=
  ⟨by with_unfolding_all decide,
   C7_parallel_rejects _ _ _ _ _ (by with_unfolding_all decide)⟩

/-- C9: the faces reachable from the tree built over a mesh are exactly the
face indexes 0..faces.length, each exactly once across all leaves, and no
intermediate node holds face indexes of its own. -/
theorem C9_leaf_partition (mesh : Mesh) :
    (treeFaces (BvhNode.from_mesh mesh)).Perm (List.range mesh.faces.length) ∧
    LeafOnly (BvhNode.from_mesh mesh) :=
  ⟨build_treeFaces_perm mesh (List.range mesh.faces.length),
   build_leafOnly mesh (List.range mesh.faces.length)⟩

/-- C8 witness: the theorem applied to the normal (0,0,1) and the draw pair
(0,0). -/
theorem ggx_roughness_zero_witness :
    (⟨0, 0, 1⟩ : Vec3 ℝ).norm = 1 ∧ (0 : ℝ) ≤ 0 ∧ (0 : ℝ) < 1 ∧
    importance_sample_ggx (0, 0) ⟨0, 0, 1⟩ 0 = (⟨0, 0, 1⟩ : Vec3 ℝ) :=
  ⟨by norm_num [Vec3.norm], le_refl 0, by norm_num,
   ggx_roughness_zero 0 0 ⟨0, 0, 1⟩ (by norm_num [Vec3.norm]) (le_refl 0) (by norm_num)⟩

/-- C10 witness: the theorem applied to the normal (0,0,1) and the draw
pair (0,0). -/
theorem diffuse_sample_norm_witness :
    (⟨0, 0, 1⟩ : Vec3 ℝ).norm = 1 ∧ (0 : ℝ) ≤ 0 ∧ (0 : ℝ) ≤ 1 ∧
    (importance_sample_diffuse (0, 0) ⟨0, 0, 1⟩).norm = 1 :=
  ⟨by norm_num [Vec3.norm], le_refl 0, by norm_num,
   diffuse_sample_norm 0 0 ⟨0, 0, 1⟩ (by norm_num [Vec3.norm]) (le_refl 0) (by norm_num)⟩

end Hanamaru
